import Mathlib

/-!
The configuration content store of default-gen.

A shallow embedding of `app/app.go` and `sql/schema.go`, together with the parts of the Go
standard library that decide their behaviour (`encoding/base64`, `flag`, `slices.Sort`,
`strings.Index`), and the properties of the codec, the command dispatcher and the handlers.

Go strings and byte slices are byte sequences; they are embedded as lists of naturals, every
element standing for one byte.
-/

namespace DefaultGen

/-- A Go `string` or `[]byte`: the sequence of its bytes. -/
abbrev Bytes := List Nat

/-- The bytes of an ASCII literal of the source text. -/
def goStr (s : String) : Bytes := s.toList.map Char.toNat

/-- Every element is a byte value. -/
def IsBytes (b : Bytes) : Prop := ∀ x ∈ b, x < 256

/-! ## `encoding/base64`, at `base64.StdEncoding`

`StdEncoding = NewEncoding(encodeStd)`: padding character `'='`, not strict. -/

/-- The constant `encodeStd` of `encoding/base64`. -/
def encodeStd : Bytes :=
  goStr "ABCDEFGHIJKLMNOPQRSTUVWXYZabcdefghijklmnopqrstuvwxyz0123456789+/"

/-- The constant `StdPadding`, the character `'='`. -/
def padChar : Nat := 61

/-- The field `enc.encode`, a copy of the alphabet, read at index `i`. -/
def encodeTab (i : Nat) : Nat := encodeStd.getD i 0

/-- The table `enc.decodeMap` as `NewEncoding` builds it: 256 entries `0xff`, then
`decodeMap[encoder[i]] = i` for every position `i` of the alphabet. -/
def decodeMapStd : List Nat :=
  (List.range encodeStd.length).foldl (fun m i => m.set (encodeStd.getD i 0) i)
    (List.replicate 256 0xff)

/-- The lookup `enc.decodeMap[c]` for a byte `c`. -/
def decodeMap (c : Nat) : Nat := decodeMapStd.getD c 0xff

/-- The method `Encoding.Encode`: the bytes written to `dst`. Full groups of three source bytes
give four digits; a remainder of one or two bytes gives a padded group. -/
def Encode : Bytes → Bytes
  | a :: b :: c :: rest =>
    let val := a <<< 16 ||| b <<< 8 ||| c
    encodeTab (val >>> 18 &&& 0x3F) :: encodeTab (val >>> 12 &&& 0x3F) ::
      encodeTab (val >>> 6 &&& 0x3F) :: encodeTab (val &&& 0x3F) :: Encode rest
  | [a, b] =>
    let val := a <<< 16 ||| b <<< 8
    [encodeTab (val >>> 18 &&& 0x3F), encodeTab (val >>> 12 &&& 0x3F),
      encodeTab (val >>> 6 &&& 0x3F), padChar]
  | [a] =>
    let val := a <<< 16
    [encodeTab (val >>> 18 &&& 0x3F), encodeTab (val >>> 12 &&& 0x3F), padChar, padChar]
  | [] => []

/-- The method `Encoding.EncodedLen` with padding. -/
def EncodedLen (n : Nat) : Nat := (n + 2) / 3 * 4

/-- The method `Encoding.EncodeToString`: the buffer of `EncodedLen` bytes filled by
`Encode`. -/
def EncodeToString (src : Bytes) : Bytes := Encode src

/-- The method `Encoding.DecodedLen` with padding. -/
def DecodedLen (n : Nat) : Nat := n / 4 * 3

/-- What `decodeQuantum` hands back: the unread input `rest` (the source from index `si` on),
the index `si`, the bytes written to `dst` (their number is the result `n`), and the error, a
`CorruptInputError` offset. -/
structure Quantum where
  rest : Bytes
  si : Nat
  out : Bytes
  err : Option Nat
  deriving DecidableEq, Repr

/-- The loops `for si < len(src) && (src[si] == '\n' || src[si] == '\r') { si++ }`. -/
def skipNewlines : Bytes → Nat → Bytes × Nat
  | [], si => ([], si)
  | c :: rest, si => if c = 10 ∨ c = 13 then skipNewlines rest (si + 1) else (c :: rest, si)

/-- The tail of `decodeQuantum`: the 6-bit values of `dbuf` become three bytes, of which
`dlen - 1` are written (the `switch dlen` with its fallthroughs; `enc.strict` is false). -/
def quantumBytes (dbuf : List Nat) (dlen : Nat) : Bytes :=
  let val := dbuf.getD 0 0 <<< 18 ||| dbuf.getD 1 0 <<< 12 ||| dbuf.getD 2 0 <<< 6 |||
    dbuf.getD 3 0
  let b2 := (val >>> 0) % 256
  let b1 := (val >>> 8) % 256
  let b0 := (val >>> 16) % 256
  if dlen = 4 then [b0, b1, b2]
  else if dlen = 3 then [b0, b1]
  else if dlen = 2 then [b0]
  else []

/-- The `for j := 0; j < len(dbuf); j++` loop of `decodeQuantum`, entered with the unread
input, the index `si`, the counter `j` and the buffer `dbuf`. -/
def quantumLoop : Bytes → Nat → Nat → List Nat → Quantum
  | [], si, j, dbuf =>
    if 4 ≤ j then ⟨[], si, quantumBytes dbuf 4, none⟩
    else if j = 0 then ⟨[], si, [], none⟩
    else ⟨[], si, [], some (si - j)⟩
  | c :: rest, si, j, dbuf =>
    if 4 ≤ j then ⟨c :: rest, si, quantumBytes dbuf 4, none⟩
    else if decodeMap c ≠ 0xff then quantumLoop rest (si + 1) (j + 1) (dbuf.set j (decodeMap c))
    else if c = 10 ∨ c = 13 then quantumLoop rest (si + 1) j dbuf
    else if c ≠ padChar then ⟨rest, si + 1, [], some si⟩
    else if j < 2 then ⟨rest, si + 1, [], some si⟩
    else if j = 2 then
      match skipNewlines rest (si + 1) with
      | ([], si2) => ⟨[], si2, [], some si2⟩
      | (c2 :: rest2, si2) =>
        if c2 ≠ padChar then ⟨c2 :: rest2, si2, [], some (si2 - 1)⟩
        else
          match skipNewlines rest2 (si2 + 1) with
          | (rest3, si3) =>
            ⟨rest3, si3, quantumBytes dbuf 2, if rest3 = [] then none else some si3⟩
    else
      match skipNewlines rest (si + 1) with
      | (rest3, si3) => ⟨rest3, si3, quantumBytes dbuf 3, if rest3 = [] then none else some si3⟩

/-- The method `Encoding.decodeQuantum` on the source from index `si` on. -/
def decodeQuantum (rest : Bytes) (si : Nat) : Quantum := quantumLoop rest si 0 [0, 0, 0, 0]

/-- The function `assemble32`: `none` when a digit is `0xff`. -/
def assemble32 (n1 n2 n3 n4 : Nat) : Option Nat :=
  if n1 ||| n2 ||| n3 ||| n4 = 0xff then none
  else some ((n1 <<< 26 ||| n2 <<< 20 ||| n3 <<< 14 ||| n4 <<< 8) % 2 ^ 32)

/-- The function `assemble64`: `none` when a digit is `0xff`. -/
def assemble64 (n1 n2 n3 n4 n5 n6 n7 n8 : Nat) : Option Nat :=
  if n1 ||| n2 ||| n3 ||| n4 ||| n5 ||| n6 ||| n7 ||| n8 = 0xff then none
  else some ((n1 <<< 58 ||| n2 <<< 52 ||| n3 <<< 46 ||| n4 <<< 40 ||| n5 <<< 34 ||| n6 <<< 28 |||
    n7 <<< 22 ||| n8 <<< 16) % 2 ^ 64)

/-- The first three bytes of `binary.BigEndian.PutUint32`, the ones `n += 3` keeps. -/
def putUint32 (dn : Nat) : Bytes := [(dn >>> 24) % 256, (dn >>> 16) % 256, (dn >>> 8) % 256]

/-- The first six bytes of `binary.BigEndian.PutUint64`, the ones `n += 6` keeps. -/
def putUint64 (dn : Nat) : Bytes :=
  [(dn >>> 56) % 256, (dn >>> 48) % 256, (dn >>> 40) % 256, (dn >>> 32) % 256,
    (dn >>> 24) % 256, (dn >>> 16) % 256]

/-- The last loop of `Decode`: `for si < len(src)`, one `decodeQuantum` per round. `out` is
`dst[:n]`. Every round reads at least one byte, so `fuel` rounds suffice when `fuel` is at least
the length of `rest`. -/
def decodeTail : Nat → Bytes → Nat → Bytes → Bytes × Option Nat
  | 0, _, _, out => (out, none)
  | fuel + 1, rest, si, out =>
    if rest = [] then (out, none)
    else
      let q := decodeQuantum rest si
      if q.err ≠ none then (out ++ q.out, q.err)
      else decodeTail fuel q.rest q.si (out ++ q.out)

/-- The middle loop of `Decode`: `for len(src)-si >= 4 && len(dst)-n >= 4`, four digits at a
time through `assemble32`, falling back on `decodeQuantum`. -/
def decode32 (dstLen : Nat) : Nat → Bytes → Nat → Bytes → Bytes × Option Nat
  | 0, _, _, out => (out, none)
  | fuel + 1, rest, si, out =>
    match rest with
    | c0 :: c1 :: c2 :: c3 :: rest4 =>
      if 4 ≤ dstLen - out.length then
        match assemble32 (decodeMap c0) (decodeMap c1) (decodeMap c2) (decodeMap c3) with
        | some dn => decode32 dstLen fuel rest4 (si + 4) (out ++ putUint32 dn)
        | none =>
          let q := decodeQuantum rest si
          if q.err ≠ none then (out ++ q.out, q.err)
          else decode32 dstLen fuel q.rest q.si (out ++ q.out)
      else decodeTail (fuel + 1) rest si out
    | _ => decodeTail (fuel + 1) rest si out

/-- The first loop of `Decode` (taken when `strconv.IntSize >= 64`):
`for len(src)-si >= 8 && len(dst)-n >= 8`, eight digits at a time through `assemble64`,
falling back on `decodeQuantum`. -/
def decode64 (dstLen : Nat) : Nat → Bytes → Nat → Bytes → Bytes × Option Nat
  | 0, _, _, out => (out, none)
  | fuel + 1, rest, si, out =>
    match rest with
    | c0 :: c1 :: c2 :: c3 :: c4 :: c5 :: c6 :: c7 :: rest8 =>
      if 8 ≤ dstLen - out.length then
        match assemble64 (decodeMap c0) (decodeMap c1) (decodeMap c2) (decodeMap c3)
            (decodeMap c4) (decodeMap c5) (decodeMap c6) (decodeMap c7) with
        | some dn => decode64 dstLen fuel rest8 (si + 8) (out ++ putUint64 dn)
        | none =>
          let q := decodeQuantum rest si
          if q.err ≠ none then (out ++ q.out, q.err)
          else decode64 dstLen fuel q.rest q.si (out ++ q.out)
      else decode32 dstLen (fuel + 1) rest si out
    | _ => decode32 dstLen (fuel + 1) rest si out

/-- The method `Encoding.Decode` into a buffer of `dstLen` bytes: the decoded bytes `dst[:n]`
and the error. The three loops run one after the other; each appends what it decodes. With
`dstLen = DecodedLen(len(src))` no write falls outside `dst`: `n` grows by three bytes for
every four digits read. -/
def Decode (dstLen : Nat) (src : Bytes) : Bytes × Option Nat :=
  if src = [] then ([], none) else decode64 dstLen (src.length + 1) src 0 []

/-- The method `Encoding.DecodeString`: `dbuf[:n]` and the error. -/
def DecodeString (s : Bytes) : Bytes × Option Nat := Decode (DecodedLen s.length) s

/-- The byte is a character of the standard base64 alphabet: `A-Z`, `a-z`, `0-9`, `+`, `/`. -/
def inAlphabet (c : Nat) : Bool :=
  (65 ≤ c && c ≤ 90) || (97 ≤ c && c ≤ 122) || (48 ≤ c && c ≤ 57) || c == 43 || c == 47

/-- The text without its `'\r'` and `'\n'` bytes, which `decodeQuantum` skips. -/
def stripNewlines (s : Bytes) : Bytes := s.filter (fun c => c != 10 && c != 13)

/-- The padded base64 texts: groups of four characters of the alphabet, the last group
possibly two characters of the alphabet and `==`, or three and `=`. -/
def wellFormed : Bytes → Bool
  | [] => true
  | a :: b :: c :: d :: rest =>
    inAlphabet a && inAlphabet b &&
      ((inAlphabet c && inAlphabet d && wellFormed rest) ||
        (rest.isEmpty && d == 61 && (inAlphabet c || c == 61)))
  | _ => false

/-- The padded base64 texts, read one character at a time: `j` counts the characters already
read of the current group of four. -/
def wfState : Nat → Bytes → Bool
  | j, [] => j == 0
  | j, c :: t =>
    if inAlphabet c then wfState (if j = 3 then 0 else j + 1) t
    else if c = 61 then (j == 2 && decide (t = [61])) || (j == 3 && decide (t = []))
    else false

/-! ## `sql/schema.go` -/

/-- The call `strings.Index(s, sep)` for a separator of one byte (it is `IndexByte`): the index
of the first occurrence of `c` in `s`, or `-1`. -/
def IndexByte : Bytes → Nat → Int
  | [], _ => -1
  | x :: rest, c => if x = c then 0 else
    let i := IndexByte rest c
    if i < 0 then -1 else i + 1

/-- The function `parseSchema`. `none` is the run-time panic of a slice expression whose bounds
are out of range: `s[idx+2:]` needs `idx+2 <= len(s)`. -/
def parseSchema (s : Bytes) : Option (List Bytes) :=
  let idx := IndexByte s 59
  if idx < 0 then some [s]
  else
    let schemas := [s.take (idx.toNat + 1)]
    if s.length < idx.toNat + 2 then none
    else some (schemas ++ [s.drop (idx.toNat + 2)])

/-! ## Errors -/

/-- The flag package's own errors, as `parseOne` produces them. -/
inductive FlagError
  | badFlag (s : Bytes)
  | notDefined (name : Bytes)
  | needsArgument (name : Bytes)
  | ErrHelp
  deriving DecidableEq, Repr

/-- Go `error` values the program handles. `errorString` is what `errors.New` makes. -/
inductive Error
  | errorString (text : Bytes)
  | CorruptInputError (offset : Nat)
  | PathError (op : Bytes) (path : Bytes)
  | ErrNoRows
  deriving DecidableEq, Repr

/-- The function `errors.New`. -/
def errorsNew (text : String) : Error := Error.errorString (goStr text)

/-- The variable `ErrMissingInputFile`. -/
def ErrMissingInputFile : Error := errorsNew "missing input file"

/-- The variable `ErrMissingProgramName`. -/
def ErrMissingProgramName : Error := errorsNew "missing program name"

/-- The variable `ErrMissingConfigName`. -/
def ErrMissingConfigName : Error := errorsNew "missing config name"

/-- The variable `ErrInputFileDNE`. -/
def ErrInputFileDNE : Error := errorsNew "provided input file does not exist"

/-! ## Package `flag`, for string flags and `flag.ExitOnError` -/

/-- What the flag package writes to its output, standard error: the usage text of a flag set
(`defaultUsage`: the header `Usage of <name>:` and the defaults of its flags) or the message of
an error (`failf`). -/
inductive StderrEvent
  | usage (flagSet : Bytes)
  | message (e : FlagError)
  deriving DecidableEq, Repr

/-- A `flag.FlagSet`: its name, the defined flags `formal`, each with the current value of the
variable it is bound to, and the arguments not yet consumed. -/
structure FlagSet where
  name : Bytes
  formal : List (Bytes × Bytes)
  args : List Bytes
  deriving DecidableEq, Repr

/-- The function `flag.NewFlagSet`. -/
def NewFlagSet (name : Bytes) : FlagSet := ⟨name, [], []⟩

/-- The method `FlagSet.StringVar`: defines the flag and stores the default in its variable. -/
def FlagSet.StringVar (f : FlagSet) (name value : Bytes) : FlagSet :=
  { f with formal := f.formal ++ [(name, value)] }

/-- The value of the variable bound to flag `name` (empty when the flag is not defined). -/
def FlagSet.value (f : FlagSet) (name : Bytes) : Bytes :=
  match f.formal.find? (fun p => p.1 = name) with
  | some p => p.2
  | none => []

/-- The lookup `f.formal[name]`: whether the flag is defined. -/
def FlagSet.defined (f : FlagSet) (name : Bytes) : Bool :=
  (f.formal.find? (fun p => p.1 = name)).isSome

/-- The call `flag.Value.Set(value)` of a string flag: it stores the value, and cannot fail. -/
def FlagSet.setValue (f : FlagSet) (name value : Bytes) : FlagSet :=
  { f with formal := f.formal.map (fun p => if p.1 = name then (p.1, value) else p) }

/-- The result of `parseOne`: the flag set, whether a flag was seen, the error, and what was
written to standard error. -/
structure ParseOne where
  f : FlagSet
  seen : Bool
  err : Option FlagError
  stderr : List StderrEvent
  deriving DecidableEq, Repr

/-- The method `FlagSet.parseOne`. -/
def FlagSet.parseOne (f : FlagSet) : ParseOne :=
  match f.args with
  | [] => ⟨f, false, none, []⟩
  | s :: rest =>
    if s.length < 2 ∨ s.getD 0 0 ≠ 45 then ⟨f, false, none, []⟩
    else
      let numMinuses := if s.getD 1 0 = 45 then 2 else 1
      if s.getD 1 0 = 45 ∧ s.length = 2 then ⟨{ f with args := rest }, false, none, []⟩
      else
        let name := s.drop numMinuses
        if name.length = 0 ∨ name.getD 0 0 = 45 ∨ name.getD 0 0 = 61 then
          ⟨f, false, some (FlagError.badFlag s),
            [StderrEvent.message (FlagError.badFlag s), StderrEvent.usage f.name]⟩
        else
          let f := { f with args := rest }
          let i := (name.drop 1).indexOf 61
          let hasValue := decide (i < (name.drop 1).length)
          let value := if hasValue then name.drop (i + 2) else []
          let name := if hasValue then name.take (i + 1) else name
          if ¬ f.defined name then
            if name = goStr "help" ∨ name = goStr "h" then
              ⟨f, false, some FlagError.ErrHelp, [StderrEvent.usage f.name]⟩
            else
              ⟨f, false, some (FlagError.notDefined name),
                [StderrEvent.message (FlagError.notDefined name), StderrEvent.usage f.name]⟩
          else if hasValue then ⟨f.setValue name value, true, none, []⟩
          else
            match f.args with
            | v :: rest2 => ⟨{ f with args := rest2 }.setValue name v, true, none, []⟩
            | [] =>
              ⟨f, false, some (FlagError.needsArgument name),
                [StderrEvent.message (FlagError.needsArgument name), StderrEvent.usage f.name]⟩

/-- How `FlagSet.Parse` ends under `flag.ExitOnError`: it returns `nil`, or the process exits
(`os.Exit(0)` after `-h` or `-help`, `os.Exit(2)` after any other error). -/
inductive Parsed
  | ok (f : FlagSet)
  | osExit (f : FlagSet) (code : Nat) (stderr : List StderrEvent)
  deriving DecidableEq, Repr

/-- The loop of `FlagSet.Parse`. Every round that sees a flag consumes an argument, so `fuel`
rounds suffice when `fuel` exceeds the number of arguments. -/
def FlagSet.parseLoop : Nat → FlagSet → Parsed
  | 0, f => Parsed.ok f
  | fuel + 1, f =>
    let r := f.parseOne
    if r.seen then FlagSet.parseLoop fuel r.f
    else
      match r.err with
      | none => Parsed.ok r.f
      | some e => Parsed.osExit r.f (if e = FlagError.ErrHelp then 0 else 2) r.stderr

/-- The method `FlagSet.Parse`. -/
def FlagSet.Parse (f : FlagSet) (arguments : List Bytes) : Parsed :=
  FlagSet.parseLoop (arguments.length + 1) { f with args := arguments }

/-! ## Go's order on strings and `slices.Sort` -/

/-- The operator `<` on Go strings: bytewise lexicographic order. -/
def strLess : Bytes → Bytes → Bool
  | [], [] => false
  | [], _ :: _ => true
  | _ :: _, [] => false
  | a :: as, b :: bs => if a < b then true else if b < a then false else strLess as bs

/-- The function `slices.Sort` on strings: the ascending arrangement under `<` (for up to
twelve elements the library runs this very insertion sort). -/
def slicesSort (keys : List Bytes) : List Bytes :=
  keys.insertionSort (fun a b => strLess b a = false)

/-! ## The store (package `database`) -/

/-- A row of the table `config_defaults`: columns `name`, `file_name`, `program`, `content`. -/
structure ConfigDefault where
  Name : Bytes
  FileName : Bytes
  Program : Bytes
  Content : Bytes
  deriving DecidableEq, Repr

/-- Modelled from the spec: the query `InsertConfigDefaults` of the generated package
`database`, which is not among the sources. "`Insert(record)`: writes a new ConfigRecord. No
overwrite-detection is performed (insert succeeds, creating a duplicate row)." Failures of the
storage engine are not modelled. -/
def InsertConfigDefaults (db : List ConfigDefault) (arg : ConfigDefault) :
    List ConfigDefault × Option Error :=
  (db ++ [arg], none)

/-- Modelled from the spec: the query `GetConfigDefaultByName` of the generated package
`database`, which is not among the sources. "`GetByName(name)`: returns the first/only matching
record. Fails with `NotFoundError` when no record matches." -/
def GetConfigDefaultByName (db : List ConfigDefault) (name : Bytes) :
    Except Error ConfigDefault :=
  match db.find? (fun r => r.Name = name) with
  | some r => Except.ok r
  | none => Except.error Error.ErrNoRows

/-- Modelled from the spec: the query `GetAllConfigs` of the generated package `database`,
which is not among the sources. "`ListAll()`: an ordered sequence of stored record names. Empty
store yields an empty sequence, not an error." -/
def GetAllConfigs (db : List ConfigDefault) : List ConfigDefault × Option Error :=
  (db, none)

/-! ## `app/app.go` -/

/-- The operating system as the handlers meet it: `filepath.Abs`, `filepath.Join` of two
elements, `os.ReadFile`, and whether `os.Create` of a path fails. -/
structure Env where
  Abs : Bytes → Except Error Bytes
  Join : Bytes → Bytes → Bytes
  ReadFile : Bytes → Except Error Bytes
  Create : Bytes → Option Error

/-- The mutable state a handler works on: the fields of `App` the flags are bound to, the rows
behind `a.db` and whether the connection is closed, the bytes written to standard output, what
the flag package wrote to standard error, and the files written, latest first. -/
structure State where
  inputFile : Bytes
  programName : Bytes
  configName : Bytes
  outDir : Bytes
  db : List ConfigDefault
  dbClosed : Bool
  stdout : Bytes
  stderr : List StderrEvent
  written : List (Bytes × Bytes)
  deriving DecidableEq, Repr

/-- How a call ends: it returns an `error` (`none` is `nil`), or the process exits. -/
inductive Outcome
  | ret (a : State) (err : Option Error)
  | osExit (a : State) (code : Nat)
  deriving DecidableEq, Repr

/-- The state a call leaves behind. -/
def Outcome.state : Outcome → State
  | Outcome.ret a _ => a
  | Outcome.osExit a _ => a

/-- The type `commandHandler`: `func(printUsage bool, args ...string) error`, a closure over
the `App`. -/
abbrev commandHandler := Bool → List Bytes → State → Outcome

/-- The statement `fmt.Fprintln(os.Stdout, s)` (and `fmt.Println`): the operand, then a
newline. -/
def Println (a : State) (s : Bytes) : State := { a with stdout := a.stdout ++ s ++ [10] }

/-- The call `f.Usage()` of a flag set: `defaultUsage` writes to standard error. -/
def Usage (a : State) (f : FlagSet) : State :=
  { a with stderr := a.stderr ++ [StderrEvent.usage f.name] }

/-- The function `encodeConfigFileContent`. -/
def encodeConfigFileContent (env : Env) (filePath : Bytes) : Bytes × Option Error :=
  match env.ReadFile filePath with
  | Except.error err => ([], some err)
  | Except.ok data => (EncodeToString data, none)

/-- The function `decodeConfigFileContent`. -/
def decodeConfigFileContent (content : Bytes) : Bytes × Option Error :=
  ((DecodeString content).1, (DecodeString content).2.map Error.CorruptInputError)

/-- The function `writeConfigToFile`. -/
def writeConfigToFile (env : Env) (a : State) (dir fileName content : Bytes) : Outcome :=
  match env.Abs dir with
  | Except.error err => Outcome.ret a (some err)
  | Except.ok dir =>
    match env.Create (env.Join dir fileName) with
    | some err => Outcome.ret a (some err)
    | none =>
      Outcome.ret { a with written := (env.Join dir fileName, content) :: a.written } none

/-- The flag set `addCmd` the handler `addConfig` builds: `flag.NewFlagSet("add-config",
flag.ExitOnError)` and the string flags `f`, `n`, `p`, each with the default `""`. -/
def addCmd : FlagSet :=
  (((NewFlagSet (goStr "add-config")).StringVar (goStr "f") []).StringVar (goStr "n")
    []).StringVar (goStr "p") []

/-- The flag set `getCmd` the handler `getConfigCmd` builds: `flag.NewFlagSet("get-config",
flag.ExitOnError)` and the string flags `n`, `d`, each with the default `""`. -/
def getCmd : FlagSet :=
  ((NewFlagSet (goStr "get-config")).StringVar (goStr "n") []).StringVar (goStr "d") []

/-- The flag set `listCmd` the handler `listConfigCmd` builds; it defines no flag. -/
def listCmd : FlagSet := NewFlagSet (goStr "list")

/-- The handler `addConfig(a)`. `StringVar` stores the defaults in the fields of `App` on every
call. -/
def addConfig (env : Env) : commandHandler := fun printUsage args a =>
  let a := { a with inputFile := [], configName := [], programName := [] }
  if printUsage then Outcome.ret (Usage a addCmd) none
  else if args.length < 3 then Outcome.ret (Usage a addCmd) none
  else
    match addCmd.Parse args with
    | Parsed.osExit f code stderr =>
      Outcome.osExit
        { a with
          inputFile := f.value (goStr "f")
          configName := f.value (goStr "n")
          programName := f.value (goStr "p")
          stderr := a.stderr ++ stderr } code
    | Parsed.ok f =>
      let a :=
        { a with
          inputFile := f.value (goStr "f")
          configName := f.value (goStr "n")
          programName := f.value (goStr "p") }
      if a.inputFile = [] then Outcome.ret a (some ErrMissingInputFile)
      else if a.programName = [] then Outcome.ret a (some ErrMissingProgramName)
      else if a.configName = [] then Outcome.ret a (some ErrMissingConfigName)
      else
        match env.Abs a.inputFile with
        | Except.error err => Outcome.ret a (some err)
        | Except.ok configPath =>
          match encodeConfigFileContent env configPath with
          | (_, some err) => Outcome.ret a (some err)
          | (content, none) =>
            let insertParams : ConfigDefault :=
              { Name := a.configName
                Program := a.programName
                FileName := a.inputFile
                Content := content }
            match InsertConfigDefaults a.db insertParams with
            | (_, some err) => Outcome.ret a (some err)
            | (db, none) => Outcome.ret { a with db := db } none

/-- The handler `getConfigCmd(a)`. `StringVar` stores the defaults in the fields of `App` on
every call. -/
def getConfigCmd (env : Env) : commandHandler := fun printUsage args a =>
  let a := { a with configName := [], outDir := [] }
  if printUsage then Outcome.ret (Usage a getCmd) none
  else
    match getCmd.Parse args with
    | Parsed.osExit f code stderr =>
      Outcome.osExit
        { a with
          configName := f.value (goStr "n")
          outDir := f.value (goStr "d")
          stderr := a.stderr ++ stderr } code
    | Parsed.ok f =>
      let a := { a with configName := f.value (goStr "n"), outDir := f.value (goStr "d") }
      if a.configName = [] then Outcome.ret a (some ErrMissingConfigName)
      else
        match GetConfigDefaultByName a.db a.configName with
        | Except.error err => Outcome.ret a (some err)
        | Except.ok row =>
          match decodeConfigFileContent row.Content with
          | (_, some err) => Outcome.ret a (some err)
          | (data, none) =>
            if a.outDir ≠ [] then writeConfigToFile env a a.outDir row.FileName data
            else Outcome.ret (Println a data) none

/-- The handler `listConfigCmd(a)`. -/
def listConfigCmd (_env : Env) : commandHandler := fun printUsage args a =>
  if printUsage then Outcome.ret (Usage a listCmd) none
  else
    match listCmd.Parse args with
    | Parsed.osExit _ code stderr => Outcome.osExit { a with stderr := a.stderr ++ stderr } code
    | Parsed.ok _ =>
      match GetAllConfigs a.db with
      | (_, some err) => Outcome.ret a (some err)
      | (rows, none) => Outcome.ret (rows.foldl (fun a row => Println a row.Name) a) none

/-- The map `cmdHandlers`: its entries, keys pairwise distinct, in the order an iteration
happens to visit them. -/
abbrev Registry := List (Bytes × commandHandler)

/-- The index expression `m[key]` with its `ok` result. -/
def Registry.get (m : Registry) (cmdName : Bytes) : Option commandHandler :=
  (m.find? (fun p => p.1 = cmdName)).map (fun p => p.2)

/-- The method `App.registerHandler`: the assignment `a.cmdHandlers[name] = h`. -/
def registerHandler (m : Registry) (name : Bytes) (h : commandHandler) : Registry :=
  (name, h) :: m.filter (fun p => p.1 ≠ name)

/-- The handlers `App.Init` registers. -/
def Init (env : Env) : Registry :=
  registerHandler (registerHandler (registerHandler [] (goStr "add-config") (addConfig env))
    (goStr "get-config") (getConfigCmd env)) (goStr "list") (listConfigCmd env)

/-- The keys `sortedMap` collects and sorts. -/
def sortedKeys (m : Registry) : List Bytes := slicesSort (m.map (fun p => p.1))

/-- The function `sortedMap`: the handlers `m[key]` in the order of the sorted keys. -/
def sortedMap (m : Registry) : List commandHandler :=
  (sortedKeys m).filterMap (fun key => m.get key)

/-- The loop of `App.printUsage` over a sequence of handlers: `h(true)`, its result dropped,
then `fmt.Println()`. -/
def printUsageLoop : List commandHandler → State → Outcome
  | [], a => Outcome.ret a none
  | h :: hs, a =>
    match h true [] a with
    | Outcome.ret a2 _ => printUsageLoop hs (Println a2 [])
    | Outcome.osExit a2 code => Outcome.osExit a2 code

/-- The method `App.printUsage`. -/
def printUsage (m : Registry) (a : State) : Outcome := printUsageLoop (sortedMap m) a

/-- The method `App.Close`. -/
def Close (a : State) : State := { a with dbClosed := true }

/-- The deferred `a.Close()` of `App.Run`: it runs when `Run` returns, not when the process
exits. -/
def deferClose : Outcome → Outcome
  | Outcome.ret a err => Outcome.ret (Close a) err
  | Outcome.osExit a code => Outcome.osExit a code

/-- The method `App.Run` with `os.Args = osArgs`. -/
def Run (m : Registry) (osArgs : List Bytes) (a : State) : Outcome :=
  deferClose <|
    if osArgs.length < 2 then
      match printUsage m (Println (Println a (goStr "incorrect number of flags")) []) with
      | Outcome.ret a2 _ => Outcome.ret a2 none
      | Outcome.osExit a2 code => Outcome.osExit a2 code
    else
      let cmdName := osArgs.getD 1 []
      match m.get cmdName with
      | none =>
        match printUsage m a with
        | Outcome.ret a2 _ => Outcome.ret a2 none
        | Outcome.osExit a2 code => Outcome.osExit a2 code
      | some handler => handler false (osArgs.drop 2) a

/-- What the usage call of the handler registered under `key` does to the state. -/
def usageEffect (m : Registry) (key : Bytes) (a : State) : State :=
  match m.get key with
  | some h => (h true [] a).state
  | none => a

/-- The function `filepath.Base` on Unix, used to state what the spec asks of `fileName`. -/
def Base (path : Bytes) : Bytes :=
  if path = [] then goStr "."
  else
    let stripped := (path.reverse.dropWhile (fun c => c == 47)).reverse
    let last := (stripped.reverse.takeWhile (fun c => c != 47)).reverse
    if last = [] then goStr "/" else last

/-- A sample environment, for relative paths only: the working directory is `/work` (`Abs`
puts it before the path), the relative path `conf/app/settings.toml` names a file holding
`hello`, and every file can be created. -/
def sampleEnv : Env where
  Abs := fun p => Except.ok (goStr "/work/" ++ p)
  Join := fun dir name => dir ++ goStr "/" ++ name
  ReadFile := fun p =>
    if p = goStr "/work/conf/app/settings.toml" then Except.ok (goStr "hello")
    else Except.error (Error.PathError (goStr "open") p)
  Create := fun _ => none

/-- A fresh run: nothing stored, nothing written. -/
def freshState : State :=
  { inputFile := [], programName := [], configName := [], outDir := [], db := [],
    dbClosed := false, stdout := [], stderr := [], written := [] }

/-- A store holding the record `cfg1` of program `app1`, file name `f.txt`, content `hello`. -/
def storedState : State :=
  { freshState with
    db := [{ Name := goStr "cfg1", FileName := goStr "f.txt", Program := goStr "app1",
             Content := goStr "aGVsbG8=" }] }

/-- A sample environment for the store, for relative paths only: the working directory is
`/work` and the relative path `f.txt` names a file holding `hello`. -/
def storeEnv : Env where
  Abs := fun p => Except.ok (goStr "/work/" ++ p)
  Join := fun dir name => dir ++ goStr "/" ++ name
  ReadFile := fun p =>
    if p = goStr "/work/f.txt" then Except.ok (goStr "hello")
    else Except.error (Error.PathError (goStr "open") p)
  Create := fun _ => none

/-! ## The tables of `StdEncoding` -/

set_option maxRecDepth 100000 in
theorem decodeMapStd_eq : decodeMapStd =
    (List.replicate 43 255 ++ [62, 255, 255, 255, 63] ++ [52, 53, 54, 55, 56, 57, 58, 59, 60, 61]
      ++ List.replicate 7 255 ++ List.range 26 ++ List.replicate 6 255
      ++ (List.range 26).map (· + 26) ++ List.replicate 133 255) := by decide

set_option maxRecDepth 100000 in
theorem decodeMapStd_length : decodeMapStd.length = 256 := by
  rw [decodeMapStd_eq]; decide

set_option maxRecDepth 100000 in
theorem decodeMap_small : ∀ c, c < 256 →
    (decodeMap c < 64 ∨ decodeMap c = 255) ∧ (decodeMap c ≠ 255 ↔ inAlphabet c = true) ∧
    (decodeMap c ≠ 255 → encodeTab (decodeMap c) = c) := by
  unfold decodeMap
  rw [decodeMapStd_eq]
  decide

theorem decodeMap_large (c : Nat) (h : 256 ≤ c) : decodeMap c = 255 := by
  unfold decodeMap
  rw [List.getD_eq_default]
  rw [decodeMapStd_length]; exact h

theorem decodeMap_range (c : Nat) : decodeMap c < 64 ∨ decodeMap c = 255 := by
  rcases Nat.lt_or_ge c 256 with h | h
  · exact (decodeMap_small c h).1
  · exact Or.inr (decodeMap_large c h)

theorem decodeMap_ne_iff (c : Nat) : decodeMap c ≠ 255 ↔ inAlphabet c = true := by
  rcases Nat.lt_or_ge c 256 with h | h
  · exact (decodeMap_small c h).2.1
  · constructor
    · intro h2; exact absurd (decodeMap_large c h) h2
    · intro h2
      simp only [inAlphabet, Bool.or_eq_true, Bool.and_eq_true, decide_eq_true_eq,
        beq_iff_eq] at h2
      omega

set_option maxRecDepth 100000 in
theorem encodeTab_small : ∀ i, i < 64 →
    decodeMap (encodeTab i) = i ∧ inAlphabet (encodeTab i) = true := by
  unfold decodeMap
  rw [decodeMapStd_eq]
  decide

theorem lor_add (x y k : Nat) (hx : x % 2 ^ k = 0) (hy : y < 2 ^ k) : x ||| y = x + y := by
  have h := Nat.mul_add_lt_is_or hy (x / 2 ^ k)
  have hx2 : 2 ^ k * (x / 2 ^ k) = x := by
    have := Nat.div_add_mod x (2 ^ k)
    omega
  rw [hx2] at h
  exact h.symm

theorem and63 (x : Nat) : x &&& 0x3F = x % 64 := Nat.and_pow_two_sub_one_eq_mod x 6

theorem encVal3 (a b c : Nat) (_ha : a < 256) (hb : b < 256) (hc : c < 256) :
    a <<< 16 ||| b <<< 8 ||| c = a * 65536 + b * 256 + c := by
  simp only [Nat.shiftLeft_eq]
  rw [lor_add (a * 2 ^ 16) (b * 2 ^ 8) 16 (by omega) (by omega)]
  rw [lor_add (a * 2 ^ 16 + b * 2 ^ 8) c 8 (by omega) (by omega)]

theorem decVal4 (d0 d1 d2 d3 : Nat) (_h0 : d0 < 64) (h1 : d1 < 64) (h2 : d2 < 64) (h3 : d3 < 64) :
    d0 <<< 18 ||| d1 <<< 12 ||| d2 <<< 6 ||| d3 = d0 * 262144 + d1 * 4096 + d2 * 64 + d3 := by
  simp only [Nat.shiftLeft_eq]
  rw [lor_add (d0 * 2 ^ 18) (d1 * 2 ^ 12) 18 (by omega) (by omega)]
  rw [lor_add (d0 * 2 ^ 18 + d1 * 2 ^ 12) (d2 * 2 ^ 6) 12 (by omega) (by omega)]
  rw [lor_add (d0 * 2 ^ 18 + d1 * 2 ^ 12 + d2 * 2 ^ 6) d3 6 (by omega) (by omega)]

theorem quantumBytes_four (d0 d1 d2 d3 : Nat) (h0 : d0 < 64) (h1 : d1 < 64) (h2 : d2 < 64)
    (h3 : d3 < 64) :
    quantumBytes [d0, d1, d2, d3] 4 =
      [(d0 * 4 + d1 / 16) % 256, (d1 % 16 * 16 + d2 / 4) % 256, (d2 % 4 * 64 + d3) % 256] := by
  simp only [quantumBytes, List.getD_cons_zero, List.getD_cons_succ]
  rw [decVal4 d0 d1 d2 d3 h0 h1 h2 h3]
  simp only [Nat.shiftRight_eq_div_pow]
  simp
  refine ⟨?_, ?_, ?_⟩ <;> omega

theorem skipNewlines_length (rest : Bytes) (si : Nat) :
    (skipNewlines rest si).1.length ≤ rest.length := by
  induction rest generalizing si with
  | nil => simp [skipNewlines]
  | cons c rest ih =>
    simp only [skipNewlines]
    split
    · have := ih (si + 1)
      simp only [List.length_cons]
      omega
    · simp

theorem quantumLoop_length (rest : Bytes) : ∀ (si j : Nat) (dbuf : List Nat),
    (quantumLoop rest si j dbuf).rest.length ≤ rest.length ∧
    (j < 4 → rest ≠ [] → (quantumLoop rest si j dbuf).rest.length < rest.length) := by
  induction rest with
  | nil =>
    intro si j dbuf
    simp only [quantumLoop]
    split_ifs <;> simp
  | cons c rest ih =>
    intro si j dbuf
    simp only [quantumLoop]
    by_cases h1 : 4 ≤ j
    · rw [if_pos h1]; simp; omega
    rw [if_neg h1]
    by_cases h2 : decodeMap c ≠ 255
    · rw [if_pos h2]
      have := (ih (si + 1) (j + 1) (dbuf.set j (decodeMap c))).1
      simp only [List.length_cons]
      exact ⟨by omega, fun _ _ => by omega⟩
    rw [if_neg h2]
    by_cases h3 : c = 10 ∨ c = 13
    · rw [if_pos h3]
      have := (ih (si + 1) j dbuf).1
      simp only [List.length_cons]
      exact ⟨by omega, fun _ _ => by omega⟩
    rw [if_neg h3]
    by_cases h4 : c ≠ padChar
    · rw [if_pos h4]; simp
    rw [if_neg h4]
    by_cases h5 : j < 2
    · rw [if_pos h5]; simp
    rw [if_neg h5]
    have hs := skipNewlines_length rest (si + 1)
    by_cases h6 : j = 2
    · rw [if_pos h6]
      split
      · simp
      · rename_i c2 rest2 si2 heq
        rw [heq] at hs
        have hs2 := skipNewlines_length rest2 (si2 + 1)
        simp only [List.length_cons] at hs
        by_cases h7 : c2 ≠ padChar
        · rw [if_pos h7]
          simp only [List.length_cons]
          exact ⟨by omega, fun _ _ => by omega⟩
        · rw [if_neg h7]
          simp only [List.length_cons]
          exact ⟨by omega, fun _ _ => by omega⟩
    · rw [if_neg h6]
      simp only [List.length_cons]
      exact ⟨by omega, fun _ _ => by omega⟩

theorem decodeQuantum_length (rest : Bytes) (si : Nat) (h : rest ≠ []) :
    (decodeQuantum rest si).rest.length < rest.length :=
  (quantumLoop_length rest si 0 [0, 0, 0, 0]).2 (by decide) h

theorem decodeQuantum_digits (c0 c1 c2 c3 : Nat) (rest : Bytes) (si : Nat)
    (h0 : decodeMap c0 ≠ 255) (h1 : decodeMap c1 ≠ 255) (h2 : decodeMap c2 ≠ 255)
    (h3 : decodeMap c3 ≠ 255) :
    decodeQuantum (c0 :: c1 :: c2 :: c3 :: rest) si =
      ⟨rest, si + 4,
        quantumBytes [decodeMap c0, decodeMap c1, decodeMap c2, decodeMap c3] 4, none⟩ := by
  cases rest <;> simp [decodeQuantum, quantumLoop, h0, h1, h2, h3]

set_option maxRecDepth 100000 in
theorem or_ff_small : ∀ x, x < 256 → 255 ||| x = 255 ∧ x ||| 255 = 255 := by decide

theorem or_digit (x y : Nat) (hx : x < 64 ∨ x = 255) (hy : y < 64 ∨ y = 255) :
    (x ||| y < 64 ∧ x < 64 ∧ y < 64) ∨ x ||| y = 255 := by
  rcases hx with hx | hx
  · rcases hy with hy | hy
    · exact Or.inl ⟨Nat.or_lt_two_pow (n := 6) hx hy, hx, hy⟩
    · subst hy; exact Or.inr (or_ff_small x (by omega)).2
  · subst hx
    rcases hy with hy | hy
    · exact Or.inr (or_ff_small y (by omega)).1
    · subst hy; decide

theorem or_digit4 (n1 n2 n3 n4 : Nat) (h1 : n1 < 64 ∨ n1 = 255) (h2 : n2 < 64 ∨ n2 = 255)
    (h3 : n3 < 64 ∨ n3 = 255) (h4 : n4 < 64 ∨ n4 = 255) :
    (n1 ||| n2 ||| n3 ||| n4 < 64 ∧ n1 < 64 ∧ n2 < 64 ∧ n3 < 64 ∧ n4 < 64) ∨
      n1 ||| n2 ||| n3 ||| n4 = 255 := by
  rcases or_digit n1 n2 h1 h2 with ⟨a, b, c⟩ | a
  · rcases or_digit (n1 ||| n2) n3 (Or.inl a) h3 with ⟨a2, _, c2⟩ | a2
    · rcases or_digit (n1 ||| n2 ||| n3) n4 (Or.inl a2) h4 with ⟨a3, _, c3⟩ | a3
      · exact Or.inl ⟨a3, b, c, c2, c3⟩
      · exact Or.inr a3
    · rcases or_digit (n1 ||| n2 ||| n3) n4 (Or.inr a2) h4 with ⟨_, b3, _⟩ | a3
      · omega
      · exact Or.inr a3
  · rcases or_digit (n1 ||| n2) n3 (Or.inr a) h3 with ⟨_, b2, _⟩ | a2
    · omega
    · rcases or_digit (n1 ||| n2 ||| n3) n4 (Or.inr a2) h4 with ⟨_, b3, _⟩ | a3
      · omega
      · exact Or.inr a3

theorem assemble32_some (n1 n2 n3 n4 dn : Nat) (h1 : n1 < 64 ∨ n1 = 255)
    (h2 : n2 < 64 ∨ n2 = 255) (h3 : n3 < 64 ∨ n3 = 255) (h4 : n4 < 64 ∨ n4 = 255)
    (h : assemble32 n1 n2 n3 n4 = some dn) :
    (n1 < 64 ∧ n2 < 64 ∧ n3 < 64 ∧ n4 < 64) ∧ putUint32 dn = quantumBytes [n1, n2, n3, n4] 4 := by
  unfold assemble32 at h
  rcases or_digit4 n1 n2 n3 n4 h1 h2 h3 h4 with ⟨_, a1, a2, a3, a4⟩ | a
  swap
  · rw [if_pos a] at h; exact absurd h (by simp)
  refine ⟨⟨a1, a2, a3, a4⟩, ?_⟩
  split at h
  · exact absurd h (by simp)
  · have hv : n1 <<< 26 ||| n2 <<< 20 ||| n3 <<< 14 ||| n4 <<< 8 =
        n1 * 2 ^ 26 + n2 * 2 ^ 20 + n3 * 2 ^ 14 + n4 * 2 ^ 8 := by
      simp only [Nat.shiftLeft_eq]
      rw [lor_add (n1 * 2 ^ 26) (n2 * 2 ^ 20) 26 (by omega) (by omega)]
      rw [lor_add (n1 * 2 ^ 26 + n2 * 2 ^ 20) (n3 * 2 ^ 14) 20 (by omega) (by omega)]
      rw [lor_add (n1 * 2 ^ 26 + n2 * 2 ^ 20 + n3 * 2 ^ 14) (n4 * 2 ^ 8) 14 (by omega) (by omega)]
    rw [hv] at h
    simp only [Option.some.injEq] at h
    subst h
    rw [quantumBytes_four n1 n2 n3 n4 a1 a2 a3 a4]
    simp only [putUint32, Nat.shiftRight_eq_div_pow]
    simp
    refine ⟨?_, ?_, ?_⟩ <;> omega

theorem or_digit8 (n1 n2 n3 n4 n5 n6 n7 n8 : Nat) (h1 : n1 < 64 ∨ n1 = 255)
    (h2 : n2 < 64 ∨ n2 = 255) (h3 : n3 < 64 ∨ n3 = 255) (h4 : n4 < 64 ∨ n4 = 255)
    (h5 : n5 < 64 ∨ n5 = 255) (h6 : n6 < 64 ∨ n6 = 255) (h7 : n7 < 64 ∨ n7 = 255)
    (h8 : n8 < 64 ∨ n8 = 255) :
    (n1 < 64 ∧ n2 < 64 ∧ n3 < 64 ∧ n4 < 64 ∧ n5 < 64 ∧ n6 < 64 ∧ n7 < 64 ∧ n8 < 64) ∨
      n1 ||| n2 ||| n3 ||| n4 ||| n5 ||| n6 ||| n7 ||| n8 = 255 := by
  have hx : n1 ||| n2 ||| n3 ||| n4 < 64 ∨ n1 ||| n2 ||| n3 ||| n4 = 255 := by
    rcases or_digit4 n1 n2 n3 n4 h1 h2 h3 h4 with ⟨a, _⟩ | a
    · exact Or.inl a
    · exact Or.inr a
  have hy := or_digit4 (n1 ||| n2 ||| n3 ||| n4) n5 n6 n7 hx h5 h6 h7
  have hy2 : n1 ||| n2 ||| n3 ||| n4 ||| n5 ||| n6 ||| n7 < 64 ∨
      n1 ||| n2 ||| n3 ||| n4 ||| n5 ||| n6 ||| n7 = 255 := by
    rcases hy with ⟨a, _⟩ | a
    · exact Or.inl a
    · exact Or.inr a
  rcases or_digit _ n8 hy2 h8 with ⟨_, b, c⟩ | a
  · rcases hy with ⟨_, b1, b5, b6, b7⟩ | a
    · rcases or_digit4 n1 n2 n3 n4 h1 h2 h3 h4 with ⟨_, c1, c2, c3, c4⟩ | a
      · exact Or.inl ⟨c1, c2, c3, c4, b5, b6, b7, c⟩
      · omega
    · omega
  · exact Or.inr a

theorem assemble64_some (n1 n2 n3 n4 n5 n6 n7 n8 dn : Nat) (h1 : n1 < 64 ∨ n1 = 255)
    (h2 : n2 < 64 ∨ n2 = 255) (h3 : n3 < 64 ∨ n3 = 255) (h4 : n4 < 64 ∨ n4 = 255)
    (h5 : n5 < 64 ∨ n5 = 255) (h6 : n6 < 64 ∨ n6 = 255) (h7 : n7 < 64 ∨ n7 = 255)
    (h8 : n8 < 64 ∨ n8 = 255)
    (h : assemble64 n1 n2 n3 n4 n5 n6 n7 n8 = some dn) :
    (n1 < 64 ∧ n2 < 64 ∧ n3 < 64 ∧ n4 < 64 ∧ n5 < 64 ∧ n6 < 64 ∧ n7 < 64 ∧ n8 < 64) ∧
      putUint64 dn = quantumBytes [n1, n2, n3, n4] 4 ++ quantumBytes [n5, n6, n7, n8] 4 := by
  unfold assemble64 at h
  rcases or_digit8 n1 n2 n3 n4 n5 n6 n7 n8 h1 h2 h3 h4 h5 h6 h7 h8 with
    ⟨a1, a2, a3, a4, a5, a6, a7, a8⟩ | a
  swap
  · rw [if_pos a] at h; exact absurd h (by simp)
  refine ⟨⟨a1, a2, a3, a4, a5, a6, a7, a8⟩, ?_⟩
  split at h
  · exact absurd h (by simp)
  · have hv : n1 <<< 58 ||| n2 <<< 52 ||| n3 <<< 46 ||| n4 <<< 40 ||| n5 <<< 34 ||| n6 <<< 28 |||
          n7 <<< 22 ||| n8 <<< 16 =
        n1 * 2 ^ 58 + n2 * 2 ^ 52 + n3 * 2 ^ 46 + n4 * 2 ^ 40 + n5 * 2 ^ 34 + n6 * 2 ^ 28 +
          n7 * 2 ^ 22 + n8 * 2 ^ 16 := by
      simp only [Nat.shiftLeft_eq]
      rw [lor_add (n1 * 2 ^ 58) (n2 * 2 ^ 52) 58 (by omega) (by omega)]
      rw [lor_add (n1 * 2 ^ 58 + n2 * 2 ^ 52) (n3 * 2 ^ 46) 52 (by omega) (by omega)]
      rw [lor_add (n1 * 2 ^ 58 + n2 * 2 ^ 52 + n3 * 2 ^ 46) (n4 * 2 ^ 40) 46 (by omega)
        (by omega)]
      rw [lor_add (n1 * 2 ^ 58 + n2 * 2 ^ 52 + n3 * 2 ^ 46 + n4 * 2 ^ 40) (n5 * 2 ^ 34) 40
        (by omega) (by omega)]
      rw [lor_add (n1 * 2 ^ 58 + n2 * 2 ^ 52 + n3 * 2 ^ 46 + n4 * 2 ^ 40 + n5 * 2 ^ 34)
        (n6 * 2 ^ 28) 34 (by omega) (by omega)]
      rw [lor_add (n1 * 2 ^ 58 + n2 * 2 ^ 52 + n3 * 2 ^ 46 + n4 * 2 ^ 40 + n5 * 2 ^ 34 +
        n6 * 2 ^ 28) (n7 * 2 ^ 22) 28 (by omega) (by omega)]
      rw [lor_add (n1 * 2 ^ 58 + n2 * 2 ^ 52 + n3 * 2 ^ 46 + n4 * 2 ^ 40 + n5 * 2 ^ 34 +
        n6 * 2 ^ 28 + n7 * 2 ^ 22) (n8 * 2 ^ 16) 22 (by omega) (by omega)]
    rw [hv] at h
    simp only [Option.some.injEq] at h
    subst h
    rw [quantumBytes_four n1 n2 n3 n4 a1 a2 a3 a4, quantumBytes_four n5 n6 n7 n8 a5 a6 a7 a8]
    simp only [putUint64, Nat.shiftRight_eq_div_pow]
    simp
    refine ⟨?_, ?_, ?_, ?_, ?_, ?_⟩ <;> omega

theorem decodeTail_fuel : ∀ (fuel fuel' : Nat) (rest : Bytes) (si : Nat) (out : Bytes),
    rest.length ≤ fuel → rest.length ≤ fuel' →
    decodeTail fuel rest si out = decodeTail fuel' rest si out := by
  intro fuel
  induction fuel with
  | zero =>
    intro fuel' rest si out h _
    have : rest = [] := List.length_eq_zero.mp (by omega)
    subst this
    cases fuel' <;> simp [decodeTail]
  | succ fuel ih =>
    intro fuel' rest si out h h'
    cases fuel' with
    | zero =>
      have : rest = [] := List.length_eq_zero.mp (by omega)
      subst this
      simp [decodeTail]
    | succ fuel' =>
      simp only [decodeTail]
      by_cases hr : rest = []
      · rw [if_pos hr, if_pos hr]
      · rw [if_neg hr, if_neg hr]
        have hl := decodeQuantum_length rest si hr
        by_cases he : (decodeQuantum rest si).err ≠ none
        · rw [if_pos he, if_pos he]
        · rw [if_neg he, if_neg he]
          exact ih fuel' _ _ _ (by omega) (by omega)

theorem decode32_eq_tail (dstLen : Nat) : ∀ (fuel fuel' : Nat) (rest : Bytes) (si : Nat)
    (out : Bytes), rest.length ≤ fuel → rest.length ≤ fuel' →
    decode32 dstLen fuel rest si out = decodeTail fuel' rest si out := by
  intro fuel
  induction fuel with
  | zero =>
    intro fuel' rest si out h _
    have : rest = [] := List.length_eq_zero.mp (by omega)
    subst this
    cases fuel' <;> simp [decodeTail, decode32]
  | succ fuel ih =>
    intro fuel' rest si out h h'
    unfold decode32
    split
    · rename_i c0 c1 c2 c3 rest4
      simp only [List.length_cons] at h h'
      by_cases hd : 4 ≤ dstLen - out.length
      · rw [if_pos hd]
        obtain ⟨f2, rfl⟩ : ∃ f2, fuel' = f2 + 1 := ⟨fuel' - 1, by omega⟩
        have hne : (c0 :: c1 :: c2 :: c3 :: rest4) ≠ [] := by simp
        rw [decodeTail, if_neg hne]
        split
        · rename_i dn hdn
          obtain ⟨⟨a0, a1, a2, a3⟩, hb⟩ := assemble32_some _ _ _ _ dn (decodeMap_range c0)
            (decodeMap_range c1) (decodeMap_range c2) (decodeMap_range c3) hdn
          rw [decodeQuantum_digits c0 c1 c2 c3 rest4 si (by omega) (by omega) (by omega)
            (by omega)]
          simp only [ne_eq, not_true_eq_false, if_false]
          rw [hb]
          exact ih f2 _ _ _ (by omega) (by omega)
        · have hl := decodeQuantum_length (c0 :: c1 :: c2 :: c3 :: rest4) si hne
          simp only [List.length_cons] at hl
          by_cases he : (decodeQuantum (c0 :: c1 :: c2 :: c3 :: rest4) si).err ≠ none
          · rw [if_pos he, if_pos he]
          · rw [if_neg he, if_neg he]
            exact ih f2 _ _ _ (by omega) (by omega)
      · rw [if_neg hd]
        exact decodeTail_fuel _ _ _ _ _ (by simpa using h) (by simpa using h')
    · exact decodeTail_fuel _ _ _ _ _ h h'

theorem decode64_eq_tail (dstLen : Nat) : ∀ (fuel fuel' : Nat) (rest : Bytes) (si : Nat)
    (out : Bytes), rest.length ≤ fuel → rest.length ≤ fuel' →
    decode64 dstLen fuel rest si out = decodeTail fuel' rest si out := by
  intro fuel
  induction fuel with
  | zero =>
    intro fuel' rest si out h _
    have : rest = [] := List.length_eq_zero.mp (by omega)
    subst this
    cases fuel' <;> simp [decodeTail, decode64]
  | succ fuel ih =>
    intro fuel' rest si out h h'
    unfold decode64
    split
    · rename_i c0 c1 c2 c3 c4 c5 c6 c7 rest8
      simp only [List.length_cons] at h h'
      by_cases hd : 8 ≤ dstLen - out.length
      · rw [if_pos hd]
        have hne : (c0 :: c1 :: c2 :: c3 :: c4 :: c5 :: c6 :: c7 :: rest8) ≠ [] := by simp
        split
        · rename_i dn hdn
          obtain ⟨f2, rfl⟩ : ∃ f2, fuel' = f2 + 1 + 1 := ⟨fuel' - 2, by omega⟩
          obtain ⟨⟨a0, a1, a2, a3, a4, a5, a6, a7⟩, hb⟩ := assemble64_some _ _ _ _ _ _ _ _ dn
            (decodeMap_range c0) (decodeMap_range c1) (decodeMap_range c2) (decodeMap_range c3)
            (decodeMap_range c4) (decodeMap_range c5) (decodeMap_range c6) (decodeMap_range c7)
            hdn
          rw [decodeTail, if_neg hne]
          rw [decodeQuantum_digits c0 c1 c2 c3 _ si (by omega) (by omega) (by omega)
            (by omega)]
          simp only [ne_eq, not_true_eq_false, if_false]
          have hne2 : (c4 :: c5 :: c6 :: c7 :: rest8) ≠ [] := by simp
          rw [decodeTail, if_neg hne2]
          rw [decodeQuantum_digits c4 c5 c6 c7 _ (si + 4) (by omega) (by omega) (by omega)
            (by omega)]
          simp only [ne_eq, not_true_eq_false, if_false]
          rw [hb, List.append_assoc]
          exact ih f2 _ _ _ (by omega) (by omega)
        · obtain ⟨f2, rfl⟩ : ∃ f2, fuel' = f2 + 1 := ⟨fuel' - 1, by omega⟩
          rw [decodeTail, if_neg hne]
          have hl := decodeQuantum_length _ si hne
          simp only [List.length_cons] at hl
          by_cases he : (decodeQuantum (c0 :: c1 :: c2 :: c3 :: c4 :: c5 :: c6 :: c7 :: rest8)
              si).err ≠ none
          · rw [if_pos he, if_pos he]
          · rw [if_neg he, if_neg he]
            exact ih f2 _ _ _ (by omega) (by omega)
      · rw [if_neg hd]
        exact decode32_eq_tail _ _ _ _ _ _ (by simpa using h) (by simpa using h')
    · exact decode32_eq_tail _ _ _ _ _ _ h h'

/-- `DecodeString` computes what the plain `decodeQuantum` loop computes: the two fast paths
of `Decode` change nothing. -/
theorem DecodeString_eq_tail (s : Bytes) : DecodeString s = decodeTail s.length s 0 [] := by
  unfold DecodeString Decode
  by_cases h : s = []
  · subst h; simp [decodeTail]
  · rw [if_neg h]
    exact decode64_eq_tail _ _ _ _ _ _ (by omega) (by omega)

theorem and63_lt (x : Nat) : x &&& 0x3F < 64 := by
  rw [and63]; omega

theorem decodeMap_digit (x : Nat) : decodeMap (encodeTab (x &&& 0x3F)) = x &&& 0x3F :=
  (encodeTab_small _ (and63_lt x)).1

theorem decodeMap_digit_ne (x : Nat) : decodeMap (encodeTab (x &&& 0x3F)) ≠ 255 := by
  rw [decodeMap_digit]
  have := and63_lt x
  omega

theorem quantum_triple (a b c : Nat) (ha : a < 256) (hb : b < 256) (hc : c < 256) :
    quantumBytes [(a <<< 16 ||| b <<< 8 ||| c) >>> 18 &&& 0x3F,
      (a <<< 16 ||| b <<< 8 ||| c) >>> 12 &&& 0x3F, (a <<< 16 ||| b <<< 8 ||| c) >>> 6 &&& 0x3F,
      (a <<< 16 ||| b <<< 8 ||| c) &&& 0x3F] 4 = [a, b, c] := by
  rw [quantumBytes_four _ _ _ _ (and63_lt _) (and63_lt _) (and63_lt _) (and63_lt _)]
  rw [encVal3 a b c ha hb hc]
  simp only [and63, Nat.shiftRight_eq_div_pow]
  simp
  refine ⟨?_, ?_, ?_⟩ <;> omega

theorem quantum_pair (a b : Nat) (ha : a < 256) (hb : b < 256) :
    quantumBytes [(a <<< 16 ||| b <<< 8) >>> 18 &&& 0x3F,
      (a <<< 16 ||| b <<< 8) >>> 12 &&& 0x3F, (a <<< 16 ||| b <<< 8) >>> 6 &&& 0x3F, 0] 3
      = [a, b] := by
  have h : a <<< 16 ||| b <<< 8 = a * 65536 + b * 256 := by
    simp only [Nat.shiftLeft_eq]
    rw [lor_add (a * 2 ^ 16) (b * 2 ^ 8) 16 (by omega) (by omega)]
  simp only [quantumBytes, List.getD_cons_zero, List.getD_cons_succ]
  rw [decVal4 _ _ _ 0 (and63_lt _) (and63_lt _) (and63_lt _) (by omega)]
  rw [h]
  simp only [and63, Nat.shiftRight_eq_div_pow]
  simp
  refine ⟨?_, ?_⟩ <;> omega

theorem quantum_single (a : Nat) (ha : a < 256) :
    quantumBytes [(a <<< 16) >>> 18 &&& 0x3F, (a <<< 16) >>> 12 &&& 0x3F, 0, 0] 2 = [a] := by
  simp only [quantumBytes, List.getD_cons_zero, List.getD_cons_succ]
  rw [decVal4 _ _ 0 0 (and63_lt _) (and63_lt _) (by omega) (by omega)]
  simp only [and63, Nat.shiftRight_eq_div_pow, Nat.shiftLeft_eq]
  simp
  omega

set_option maxRecDepth 100000 in
theorem decodeMap_special : decodeMap 61 = 255 ∧ decodeMap 10 = 255 ∧ decodeMap 13 = 255 := by
  unfold decodeMap
  rw [decodeMapStd_eq]
  decide

theorem decodeQuantum_pad2 (c0 c1 : Nat) (si : Nat) (h0 : decodeMap c0 ≠ 255)
    (h1 : decodeMap c1 ≠ 255) :
    decodeQuantum [c0, c1, 61, 61] si =
      ⟨[], si + 4, quantumBytes [decodeMap c0, decodeMap c1, 0, 0] 2, none⟩ := by
  simp [decodeQuantum, quantumLoop, skipNewlines, h0, h1, decodeMap_special, padChar]

theorem decodeQuantum_pad1 (c0 c1 c2 : Nat) (si : Nat) (h0 : decodeMap c0 ≠ 255)
    (h1 : decodeMap c1 ≠ 255) (h2 : decodeMap c2 ≠ 255) :
    decodeQuantum [c0, c1, c2, 61] si =
      ⟨[], si + 4, quantumBytes [decodeMap c0, decodeMap c1, decodeMap c2, 0] 3, none⟩ := by
  simp [decodeQuantum, quantumLoop, skipNewlines, h0, h1, h2, decodeMap_special, padChar]

theorem decodeTail_nil (fuel si : Nat) (out : Bytes) : decodeTail fuel [] si out = (out, none) := by
  cases fuel <;> simp [decodeTail]

theorem decodeTail_Encode : ∀ (b : Bytes), IsBytes b → ∀ (fuel si : Nat) (out : Bytes),
    (Encode b).length ≤ fuel → decodeTail fuel (Encode b) si out = (out ++ b, none)
  | [], _, fuel, si, out, _ => by
    simp [Encode, decodeTail_nil]
  | [a], hb, fuel, si, out, hf => by
    have ha : a < 256 := hb a (by simp)
    simp only [Encode, List.length_cons, List.length_nil] at hf ⊢
    obtain ⟨f2, rfl⟩ : ∃ f2, fuel = f2 + 1 := ⟨fuel - 1, by omega⟩
    rw [decodeTail, if_neg (by simp)]
    rw [show padChar = 61 from rfl, decodeQuantum_pad2 _ _ si (decodeMap_digit_ne _)
      (decodeMap_digit_ne _)]
    simp only [ne_eq, not_true_eq_false, if_false, decodeMap_digit, decodeTail_nil]
    rw [quantum_single a ha]
  | [a, b], hb, fuel, si, out, hf => by
    have ha : a < 256 := hb a (by simp)
    have hb2 : b < 256 := hb b (by simp)
    simp only [Encode, List.length_cons, List.length_nil] at hf ⊢
    obtain ⟨f2, rfl⟩ : ∃ f2, fuel = f2 + 1 := ⟨fuel - 1, by omega⟩
    rw [decodeTail, if_neg (by simp)]
    rw [show padChar = 61 from rfl, decodeQuantum_pad1 _ _ _ si (decodeMap_digit_ne _)
      (decodeMap_digit_ne _) (decodeMap_digit_ne _)]
    simp only [ne_eq, not_true_eq_false, if_false, decodeMap_digit, decodeTail_nil]
    rw [quantum_pair a b ha hb2]
  | a :: b :: c :: rest, hb, fuel, si, out, hf => by
    have ha : a < 256 := hb a (by simp)
    have hb2 : b < 256 := hb b (by simp)
    have hc : c < 256 := hb c (by simp)
    have hrest : IsBytes rest := fun x hx => hb x (by simp [hx])
    simp only [Encode, List.length_cons] at hf ⊢
    obtain ⟨f2, rfl⟩ : ∃ f2, fuel = f2 + 1 := ⟨fuel - 1, by omega⟩
    rw [decodeTail, if_neg (by simp)]
    rw [decodeQuantum_digits _ _ _ _ _ si (decodeMap_digit_ne _) (decodeMap_digit_ne _)
      (decodeMap_digit_ne _) (decodeMap_digit_ne _)]
    simp only [ne_eq, not_true_eq_false, if_false, decodeMap_digit]
    rw [quantum_triple a b c ha hb2 hc]
    rw [decodeTail_Encode rest hrest f2 (si + 4) (out ++ [a, b, c]) (by omega)]
    simp

theorem inAlphabet_digit (x : Nat) : inAlphabet (encodeTab (x &&& 0x3F)) = true :=
  (encodeTab_small _ (and63_lt x)).2

theorem Encode_length : ∀ (b : Bytes), (Encode b).length = 4 * ((b.length + 2) / 3)
  | [] => by simp [Encode]
  | [_] => by simp [Encode]
  | [_, _] => by simp [Encode]
  | _ :: _ :: _ :: rest => by
    simp only [Encode, List.length_cons, Encode_length rest]
    omega

theorem Encode_shape : ∀ (b : Bytes), ∃ (body : Bytes) (k : Nat),
    Encode b = body ++ List.replicate k 61 ∧ k ≤ 2 ∧ ∀ c ∈ body, inAlphabet c = true
  | [] => ⟨[], 0, by simp [Encode]⟩
  | [a] =>
    ⟨[encodeTab ((a <<< 16) >>> 18 &&& 0x3F), encodeTab ((a <<< 16) >>> 12 &&& 0x3F)], 2, by
      simp [Encode, padChar, List.replicate, inAlphabet_digit]⟩
  | [a, b] =>
    ⟨[encodeTab ((a <<< 16 ||| b <<< 8) >>> 18 &&& 0x3F),
      encodeTab ((a <<< 16 ||| b <<< 8) >>> 12 &&& 0x3F),
      encodeTab ((a <<< 16 ||| b <<< 8) >>> 6 &&& 0x3F)], 1, by
      simp [Encode, padChar, List.replicate, inAlphabet_digit]⟩
  | a :: b :: c :: rest => by
    obtain ⟨body, k, h1, h2, h3⟩ := Encode_shape rest
    refine ⟨encodeTab ((a <<< 16 ||| b <<< 8 ||| c) >>> 18 &&& 0x3F) ::
      encodeTab ((a <<< 16 ||| b <<< 8 ||| c) >>> 12 &&& 0x3F) ::
      encodeTab ((a <<< 16 ||| b <<< 8 ||| c) >>> 6 &&& 0x3F) ::
      encodeTab ((a <<< 16 ||| b <<< 8 ||| c) &&& 0x3F) :: body, k, ?_, h2, ?_⟩
    · simp only [Encode, h1, List.cons_append]
    · intro x hx
      simp only [List.mem_cons] at hx
      rcases hx with rfl | rfl | rfl | rfl | hx
      · exact inAlphabet_digit _
      · exact inAlphabet_digit _
      · exact inAlphabet_digit _
      · exact inAlphabet_digit _
      · exact h3 x hx

theorem DecodeString_Encode (b : Bytes) (hb : IsBytes b) :
    DecodeString (EncodeToString b) = (b, none) := by
  rw [DecodeString_eq_tail, EncodeToString, decodeTail_Encode b hb _ 0 [] (Nat.le_refl _)]
  simp

/-- C1: for every byte sequence `b`, the empty one included, the text that
`encodeConfigFileContent` produces for a file whose bytes are `b` is
`base64.StdEncoding.EncodeToString(b)`, and `decodeConfigFileContent` applied to it returns
exactly `b` with a nil error. -/
theorem decode_encode_roundtrip (env : Env) (filePath b : Bytes) (hb : IsBytes b)
    (hread : env.ReadFile filePath = Except.ok b) :
    encodeConfigFileContent env filePath = (EncodeToString b, none) ∧
      decodeConfigFileContent (encodeConfigFileContent env filePath).1 = (b, none) := by
  have h : encodeConfigFileContent env filePath = (EncodeToString b, none) := by
    simp [encodeConfigFileContent, hread]
  refine ⟨h, ?_⟩
  rw [h]
  simp [decodeConfigFileContent, DecodeString_Encode b hb]

/-- C9: encoding cannot fail and its text is a function of the file bytes alone: for a file
whose bytes are `b`, whatever they are, `encodeConfigFileContent` returns
`EncodeToString(b)` with a nil error; that text has length `4 * ceil(len(b) / 3)` and is a run
of characters of the alphabet `A-Z a-z 0-9 + /` followed by at most two `=`. -/
theorem encode_total_storage_safe (env : Env) (filePath b : Bytes)
    (hread : env.ReadFile filePath = Except.ok b) :
    encodeConfigFileContent env filePath = (EncodeToString b, none) ∧
      (EncodeToString b).length = 4 * ((b.length + 2) / 3) ∧
      ∃ (body : Bytes) (k : Nat), EncodeToString b = body ++ List.replicate k 61 ∧ k ≤ 2 ∧
        ∀ c ∈ body, inAlphabet c = true := by
  refine ⟨by simp [encodeConfigFileContent, hread], Encode_length b, Encode_shape b⟩

theorem stripNewlines_cons_keep (c : Nat) (rest : Bytes) (h : ¬ (c = 10 ∨ c = 13)) :
    stripNewlines (c :: rest) = c :: stripNewlines rest := by
  have : (c != 10 && c != 13) = true := by
    simp only [Bool.and_eq_true, bne_iff_ne, ne_eq]
    exact ⟨fun h1 => h (Or.inl h1), fun h1 => h (Or.inr h1)⟩
  simp [stripNewlines, List.filter_cons, this]

theorem stripNewlines_cons_skip (c : Nat) (rest : Bytes) (h : c = 10 ∨ c = 13) :
    stripNewlines (c :: rest) = stripNewlines rest := by
  have : (c != 10 && c != 13) = false := by
    rcases h with h | h <;> subst h <;> decide
  simp [stripNewlines, List.filter_cons, this]

theorem skipNewlines_strip (rest : Bytes) : ∀ (si : Nat),
    stripNewlines (skipNewlines rest si).1 = stripNewlines rest ∧
    (∀ c r, (skipNewlines rest si).1 = c :: r → ¬ (c = 10 ∨ c = 13)) := by
  induction rest with
  | nil => intro si; simp [skipNewlines]
  | cons c rest ih =>
    intro si
    simp only [skipNewlines]
    by_cases h : c = 10 ∨ c = 13
    · rw [if_pos h, stripNewlines_cons_skip c rest h]
      exact ih (si + 1)
    · rw [if_neg h]
      refine ⟨rfl, ?_⟩
      intro c' r hc
      simp only [List.cons.injEq] at hc
      rw [← hc.1]; exact h

theorem skipNewlines_nil_iff (rest : Bytes) (si : Nat) :
    (skipNewlines rest si).1 = [] ↔ stripNewlines rest = [] := by
  have h := skipNewlines_strip rest si
  constructor
  · intro h1
    rw [← h.1, h1]; rfl
  · intro h1
    cases hs : (skipNewlines rest si).1 with
    | nil => rfl
    | cons c r =>
      have h2 := h.2 c r hs
      rw [← h.1, hs, stripNewlines_cons_keep c r h2] at h1
      exact absurd h1 (by simp)

theorem stripNewlines_nil : stripNewlines [] = [] := rfl

theorem quantumLoop_four (rest : Bytes) (si : Nat) (dbuf : List Nat) :
    quantumLoop rest si 4 dbuf = ⟨rest, si, quantumBytes dbuf 4, none⟩ := by
  cases rest <;> simp [quantumLoop]

theorem not_newline_of_digit (c : Nat) (h : decodeMap c ≠ 255) : ¬ (c = 10 ∨ c = 13) := by
  intro h1
  rcases h1 with h1 | h1 <;> subst h1
  · exact h decodeMap_special.2.1
  · exact h decodeMap_special.2.2

theorem quantumLoop_wf (rest : Bytes) : ∀ (si j : Nat) (dbuf : List Nat), j < 4 →
    (wfState j (stripNewlines rest) = true ↔
      ((quantumLoop rest si j dbuf).err = none ∧
        wfState 0 (stripNewlines (quantumLoop rest si j dbuf).rest) = true)) := by
  induction rest with
  | nil =>
    intro si j dbuf hj
    have h4 : ¬ 4 ≤ j := by omega
    simp only [quantumLoop, if_neg h4]
    by_cases h0 : j = 0
    · subst h0; simp [stripNewlines_nil, wfState]
    · rw [if_neg h0]; simp [stripNewlines_nil, wfState, h0]
  | cons c rest ih =>
    intro si j dbuf hj
    have h4 : ¬ 4 ≤ j := by omega
    simp only [quantumLoop, if_neg h4]
    by_cases h2 : decodeMap c ≠ 255
    · rw [if_pos h2]
      have ha : inAlphabet c = true := (decodeMap_ne_iff c).1 h2
      rw [stripNewlines_cons_keep c rest (not_newline_of_digit c h2)]
      simp only [wfState, ha, if_true]
      by_cases h3 : j = 3
      · subst h3
        simp only [if_true]
        rw [quantumLoop_four]
        simp
      · rw [if_neg h3]
        exact ih (si + 1) (j + 1) _ (by omega)
    rw [if_neg h2]
    have ha : inAlphabet c = false := by
      cases hc : inAlphabet c with
      | false => rfl
      | true => exact absurd ((decodeMap_ne_iff c).2 hc) h2
    by_cases h3 : c = 10 ∨ c = 13
    · rw [if_pos h3, stripNewlines_cons_skip c rest h3]
      exact ih (si + 1) j dbuf hj
    rw [if_neg h3, stripNewlines_cons_keep c rest h3]
    by_cases h5 : c ≠ padChar
    · rw [if_pos h5]
      have : ¬ c = 61 := h5
      simp [wfState, ha, this]
    rw [if_neg h5]
    have hc : c = 61 := not_not.mp h5
    subst hc
    by_cases h6 : j < 2
    · rw [if_pos h6]
      have h7 : ¬ j = 2 := by omega
      have h8 : ¬ j = 3 := by omega
      simp [wfState, ha, h7, h8]
    rw [if_neg h6]
    by_cases h7 : j = 2
    · subst h7
      rw [if_pos rfl]
      have hs := skipNewlines_strip rest (si + 1)
      cases hsk : skipNewlines rest (si + 1) with
      | mk r1 s1 =>
        rw [hsk] at hs
        simp only at hs
        cases r1 with
        | nil =>
          have : stripNewlines rest = [] := by rw [← hs.1]; rfl
          simp [wfState, ha, this]
        | cons c2 rest2 =>
          have hk := hs.2 c2 rest2 rfl
          have hst : stripNewlines rest = c2 :: stripNewlines rest2 := by
            rw [← hs.1, stripNewlines_cons_keep c2 rest2 hk]
          by_cases h8 : c2 ≠ padChar
          · simp only [if_pos h8]
            have : ¬ c2 = 61 := h8
            simp [wfState, ha, hst, this]
          · simp only [if_neg h8]
            have hc2 : c2 = 61 := not_not.mp h8
            subst hc2
            have hn := skipNewlines_nil_iff rest2 (61 + 1)
            by_cases h9 : (skipNewlines rest2 (s1 + 1)).1 = []
            · have h10 := (skipNewlines_nil_iff rest2 (s1 + 1)).1 h9
              simp [wfState, ha, hst, h9, h10, stripNewlines_nil]
            · have h10 : ¬ stripNewlines rest2 = [] :=
                fun h => h9 ((skipNewlines_nil_iff rest2 (s1 + 1)).2 h)
              simp [wfState, ha, hst, h9, h10]
    · rw [if_neg h7]
      have h3j : j = 3 := by omega
      subst h3j
      by_cases h9 : (skipNewlines rest (si + 1)).1 = []
      · have h10 := (skipNewlines_nil_iff rest (si + 1)).1 h9
        simp [wfState, ha, h9, h10, stripNewlines_nil]
      · have h10 : ¬ stripNewlines rest = [] :=
          fun h => h9 ((skipNewlines_nil_iff rest (si + 1)).2 h)
        simp [wfState, ha, h9, h10]

theorem decodeTail_wf : ∀ (fuel : Nat) (rest : Bytes) (si : Nat) (out : Bytes),
    rest.length ≤ fuel →
    ((decodeTail fuel rest si out).2 = none ↔ wfState 0 (stripNewlines rest) = true) := by
  intro fuel
  induction fuel with
  | zero =>
    intro rest si out h
    have : rest = [] := List.length_eq_zero.mp (by omega)
    subst this
    simp [decodeTail, stripNewlines_nil, wfState]
  | succ fuel ih =>
    intro rest si out h
    rw [decodeTail]
    by_cases hr : rest = []
    · subst hr
      simp [stripNewlines_nil, wfState]
    · rw [if_neg hr]
      have hq := quantumLoop_wf rest si 0 [0, 0, 0, 0] (by decide)
      have hl := decodeQuantum_length rest si hr
      by_cases he : (decodeQuantum rest si).err ≠ none
      · rw [if_pos he]
        constructor
        · intro h1; exact absurd h1 he
        · intro h1; exact absurd (hq.1 h1).1 he
      · rw [if_neg he]
        rw [ih _ _ _ (by omega)]
        constructor
        · intro h1; exact hq.2 ⟨not_not.mp he, h1⟩
        · intro h1; exact (hq.1 h1).2

theorem inAlphabet_pad : inAlphabet 61 = false := by decide

theorem wfState_eq_wellFormed : ∀ (t : Bytes), wfState 0 t = wellFormed t
  | [] => by simp [wfState, wellFormed]
  | [a] => by
    by_cases ha : inAlphabet a = true <;> simp [wfState, wellFormed, ha]
  | [a, b] => by
    by_cases ha : inAlphabet a = true <;> by_cases hb : inAlphabet b = true <;>
      simp [wfState, wellFormed, ha, hb]
  | [a, b, c] => by
    by_cases ha : inAlphabet a = true <;> by_cases hb : inAlphabet b = true <;>
      by_cases hc : inAlphabet c = true <;> simp [wfState, wellFormed, ha, hb, hc]
  | a :: b :: c :: d :: rest => by
    have ih := wfState_eq_wellFormed rest
    have hp := inAlphabet_pad
    by_cases ha : inAlphabet a = true
    swap
    · simp [wfState, wellFormed, ha]
    by_cases hb : inAlphabet b = true
    swap
    · simp [wfState, wellFormed, ha, hb]
    by_cases hc61 : c = 61
    · subst hc61
      by_cases hd61 : d = 61
      · subst hd61
        cases rest <;> simp [wfState, wellFormed, ha, hb, hp]
      · have hd' : (d == 61) = false := by simp [hd61]
        by_cases hd : inAlphabet d = true <;> cases rest <;>
          simp [wfState, wellFormed, ha, hb, hp, hd, hd61]
    · by_cases hd61 : d = 61
      · subst hd61
        by_cases hc : inAlphabet c = true <;> cases rest <;>
          simp [wfState, wellFormed, ha, hb, hp, hc, hc61]
      · by_cases hc : inAlphabet c = true <;> by_cases hd : inAlphabet d = true <;>
          simp [wfState, wellFormed, ha, hb, hc, hd, hc61, hd61, ih]

theorem wellFormed_length : ∀ (t : Bytes), wellFormed t = true → t.length % 4 = 0
  | [], _ => by simp
  | [_], h => by simp [wellFormed] at h
  | [_, _], h => by simp [wellFormed] at h
  | [_, _, _], h => by simp [wellFormed] at h
  | a :: b :: c :: d :: rest, h => by
    simp only [wellFormed, Bool.and_eq_true, Bool.or_eq_true] at h
    simp only [List.length_cons]
    rcases h.2 with h1 | h1
    · have := wellFormed_length rest h1.2
      omega
    · have hr : rest = [] := by simpa using h1.1.1
      subst hr
      simp

theorem wellFormed_shape : ∀ (t : Bytes), wellFormed t = true →
    ∃ (body : Bytes) (k : Nat), t = body ++ List.replicate k 61 ∧ k ≤ 2 ∧
      ∀ c ∈ body, inAlphabet c = true
  | [], _ => ⟨[], 0, by simp⟩
  | [_], h => by simp [wellFormed] at h
  | [_, _], h => by simp [wellFormed] at h
  | [_, _, _], h => by simp [wellFormed] at h
  | a :: b :: c :: d :: rest, h => by
    simp only [wellFormed, Bool.and_eq_true, Bool.or_eq_true] at h
    obtain ⟨⟨ha, hb⟩, h2⟩ := h
    rcases h2 with h1 | h1
    · obtain ⟨body, k, e, hk, hm⟩ := wellFormed_shape rest h1.2
      refine ⟨a :: b :: c :: d :: body, k, by simp [e], hk, ?_⟩
      intro x hx
      simp only [List.mem_cons] at hx
      rcases hx with rfl | rfl | rfl | rfl | hx
      · exact ha
      · exact hb
      · exact h1.1.1
      · exact h1.1.2
      · exact hm x hx
    · have hr : rest = [] := by simpa using h1.1.1
      have hd : d = 61 := by simpa using h1.1.2
      subst hr hd
      rcases h1.2 with hc | hc
      · refine ⟨[a, b, c], 1, by simp [List.replicate], by omega, ?_⟩
        intro x hx
        simp only [List.mem_cons, List.mem_singleton, List.not_mem_nil, or_false] at hx
        rcases hx with rfl | rfl | rfl
        · exact ha
        · exact hb
        · exact hc
      · have hc' : c = 61 := by simpa using hc
        subst hc'
        refine ⟨[a, b], 2, by simp [List.replicate], by omega, ?_⟩
        intro x hx
        simp only [List.mem_cons, List.mem_singleton, List.not_mem_nil, or_false] at hx
        rcases hx with rfl | rfl
        · exact ha
        · exact hb

theorem mem_stripNewlines (c : Nat) (s : Bytes) (h : c ∈ s) (h10 : c ≠ 10) (h13 : c ≠ 13) :
    c ∈ stripNewlines s := by
  simp only [stripNewlines, List.mem_filter, Bool.and_eq_true, bne_iff_ne, ne_eq]
  exact ⟨h, h10, h13⟩

theorem decodeConfigFileContent_err (s : Bytes) :
    (decodeConfigFileContent s).2 = none ↔ wellFormed (stripNewlines s) = true := by
  simp only [decodeConfigFileContent, Option.map_eq_none']
  rw [DecodeString_eq_tail, decodeTail_wf _ _ _ _ (Nat.le_refl _), wfState_eq_wellFormed]

/-- C7 as amended: `decodeConfigFileContent` skips the bytes CR and LF and does not check the
unused bits of the last digit. It returns a nil error exactly on the texts that, once CR and LF
are removed, are groups of four characters of the alphabet, the last group possibly ending in
`=` or `==`. So it returns an error for every text holding a byte that is neither of the
alphabet nor `=`, CR or LF, for every text whose length without CR and LF is not a multiple of
4, and for every text that, without CR and LF, is not a run of characters of the alphabet
followed by at most two `=`. -/
theorem decode_error_characterised (s : Bytes) :
    ((decodeConfigFileContent s).2 = none ↔ wellFormed (stripNewlines s) = true) ∧
    ((∃ c ∈ s, inAlphabet c = false ∧ c ≠ 61 ∧ c ≠ 10 ∧ c ≠ 13) →
      (decodeConfigFileContent s).2 ≠ none) ∧
    ((stripNewlines s).length % 4 ≠ 0 → (decodeConfigFileContent s).2 ≠ none) ∧
    ((¬ ∃ (body : Bytes) (k : Nat), stripNewlines s = body ++ List.replicate k 61 ∧ k ≤ 2 ∧
        ∀ c ∈ body, inAlphabet c = true) → (decodeConfigFileContent s).2 ≠ none) := by
  refine ⟨decodeConfigFileContent_err s, ?_, ?_, ?_⟩
  · rintro ⟨c, hc, ha, h61, h10, h13⟩ he
    obtain ⟨body, k, e, _, hm⟩ := wellFormed_shape _ ((decodeConfigFileContent_err s).1 he)
    have hmem := mem_stripNewlines c s hc h10 h13
    rw [e, List.mem_append] at hmem
    rcases hmem with h | h
    · rw [hm c h] at ha; exact absurd ha (by simp)
    · exact h61 (List.eq_of_mem_replicate h)
  · intro hl he
    exact hl (wellFormed_length _ ((decodeConfigFileContent_err s).1 he))
  · intro hn he
    exact hn (wellFormed_shape _ ((decodeConfigFileContent_err s).1 he))

theorem decode_error_characterised_witness :
    (decodeConfigFileContent (goStr "aGVs*G8=")).2 ≠ none :=
  (decode_error_characterised (goStr "aGVs*G8=")).2.1 ⟨42, by decide, by decide⟩

/-- C7 as stated fails: the text `"YQ==\n"` holds the byte LF, which is not of the alphabet, and
has length 5, and the text `"YR=="` is the encoding of no byte sequence (the encoding of `"a"`
is `"YQ=="`), yet both decode to `"a"` with a nil error. -/
theorem decode_accepts_non_encodings :
    decodeConfigFileContent (goStr "YQ==\n") = (goStr "a", none) ∧
    (10 ∈ goStr "YQ==\n" ∧ inAlphabet 10 = false ∧ (goStr "YQ==\n").length = 5) ∧
    (∀ b, IsBytes b → EncodeToString b ≠ goStr "YQ==\n") ∧
    decodeConfigFileContent (goStr "YR==") = (goStr "a", none) ∧
    (∀ b, IsBytes b → EncodeToString b ≠ goStr "YR==") := by
  refine ⟨by decide, by decide, ?_, by decide, ?_⟩
  · intro b _ h
    have hl := Encode_length b
    rw [show Encode b = EncodeToString b from rfl, h] at hl
    have : (goStr "YQ==\n").length = 5 := by decide
    omega
  · intro b hb h
    have hd := DecodeString_Encode b hb
    rw [h] at hd
    have h2 : DecodeString (goStr "YR==") = (goStr "a", none) := by decide
    rw [h2] at hd
    have hb' : b = goStr "a" := (Prod.mk.inj hd).1.symm
    subst hb'
    exact absurd h (by decide)

theorem setValue_args (f : FlagSet) (name value : Bytes) : (f.setValue name value).args = f.args :=
  rfl

theorem parseOne_seen (f : FlagSet) (h : f.parseOne.seen = true) :
    f.parseOne.f.args.length < f.args.length := by
  unfold FlagSet.parseOne at h ⊢
  cases hargs : f.args with
  | nil => simp [hargs] at h
  | cons s rest =>
    simp only [hargs] at h ⊢
    split_ifs at h ⊢ <;> simp_all [setValue_args]
    all_goals
      split at h <;> simp_all [setValue_args]
      omega

/-- The loop of `FlagSet.Parse` never runs out of rounds: more fuel changes nothing. -/
theorem parseLoop_fuel : ∀ (fuel fuel' : Nat) (f : FlagSet), f.args.length < fuel →
    f.args.length < fuel' → FlagSet.parseLoop fuel f = FlagSet.parseLoop fuel' f := by
  intro fuel
  induction fuel with
  | zero => intro fuel' f h; omega
  | succ fuel ih =>
    intro fuel' f h h'
    obtain ⟨f2, rfl⟩ : ∃ f2, fuel' = f2 + 1 := ⟨fuel' - 1, by omega⟩
    simp only [FlagSet.parseLoop]
    by_cases hs : f.parseOne.seen = true
    · rw [if_pos hs, if_pos hs]
      have := parseOne_seen f hs
      exact ih f2 _ (by omega) (by omega)
    · rw [if_neg hs, if_neg hs]

theorem strLess_irrefl : ∀ (a : Bytes), strLess a a = false
  | [] => rfl
  | x :: xs => by simp [strLess, strLess_irrefl xs]

theorem strLess_asymm : ∀ (a b : Bytes), strLess a b = true → strLess b a = false
  | [], [], h => by simp [strLess] at h
  | [], _ :: _, _ => by simp [strLess]
  | _ :: _, [], h => by simp [strLess] at h
  | x :: xs, y :: ys, h => by
    simp only [strLess] at h ⊢
    by_cases h1 : x < y
    · have h2 : ¬ y < x := by omega
      simp [h1, h2]
    · by_cases h2 : y < x
      · simp [h1, h2] at h
      · simp only [h1, h2, if_false] at h ⊢
        exact strLess_asymm xs ys h

theorem strLess_connected : ∀ (a b : Bytes), strLess a b = false → strLess b a = false → a = b
  | [], [], _, _ => rfl
  | [], _ :: _, h, _ => by simp [strLess] at h
  | _ :: _, [], _, h => by simp [strLess] at h
  | x :: xs, y :: ys, h, h' => by
    simp only [strLess] at h h'
    by_cases h1 : x < y
    · simp [h1] at h
    · by_cases h2 : y < x
      · simp [h2] at h'
      · simp only [h1, h2, if_false] at h h'
        have : x = y := by omega
        rw [this, strLess_connected xs ys h h']

theorem strLess_le_trans : ∀ (a b c : Bytes), strLess b a = false → strLess c b = false →
    strLess c a = false
  | [], _, [], _, _ => rfl
  | [], _, _ :: _, _, _ => by simp [strLess]
  | _ :: _, [], _, h, _ => by simp [strLess] at h
  | _ :: _, _ :: _, [], _, h => by simp [strLess] at h
  | x :: xs, y :: ys, z :: zs, h, h' => by
    simp only [strLess] at h h' ⊢
    by_cases h1 : y < x
    · simp [h1] at h
    · by_cases h2 : z < y
      · simp [h2] at h'
      · have h4 : ¬ z < x := by omega
        by_cases h5 : x < z
        · simp [h4, h5]
        · have hxy : x = y := by omega
          have hyz : y = z := by omega
          subst hxy hyz
          simp only [h1, if_false] at h h' ⊢
          exact strLess_le_trans xs ys zs h h'

theorem strLE_total : IsTotal Bytes (fun a b => strLess b a = false) :=
  ⟨fun a b => by
    cases h : strLess b a with
    | false => exact Or.inl rfl
    | true => exact Or.inr (strLess_asymm b a h)⟩

theorem strLE_trans : IsTrans Bytes (fun a b => strLess b a = false) :=
  ⟨fun a b c h h' => strLess_le_trans a b c h h'⟩

theorem slicesSort_perm (keys : List Bytes) : (slicesSort keys).Perm keys :=
  List.perm_insertionSort _ keys

theorem slicesSort_sorted (keys : List Bytes) :
    (slicesSort keys).Pairwise (fun a b => strLess b a = false) := by
  haveI := strLE_total
  haveI := strLE_trans
  exact List.sorted_insertionSort _ keys

theorem slicesSort_strict (keys : List Bytes) (h : keys.Nodup) :
    (slicesSort keys).Pairwise (fun a b => strLess a b = true) := by
  have hn : (slicesSort keys).Nodup := (slicesSort_perm keys).nodup_iff.2 h
  refine List.Pairwise.imp₂ ?_ (slicesSort_sorted keys) hn
  intro a b h1 h2
  cases h3 : strLess a b with
  | true => rfl
  | false => exact absurd (strLess_connected a b h3 h1) h2

/-- C3 as stated fails: with the argument list `["-n", "cfg1"]`, which supplies no `-f`, the
add-config handler prints its usage and returns a nil error, not `ErrMissingInputFile`. -/
theorem addConfig_short_args_returns_nil :
    addConfig sampleEnv false [goStr "-n", goStr "cfg1"] freshState =
      Outcome.ret { freshState with stderr := [StderrEvent.usage (goStr "add-config")] } none ∧
    ∀ a, addConfig sampleEnv false [goStr "-n", goStr "cfg1"] freshState ≠
      Outcome.ret a (some ErrMissingInputFile) := by
  have h : addConfig sampleEnv false [goStr "-n", goStr "cfg1"] freshState =
      Outcome.ret { freshState with stderr := [StderrEvent.usage (goStr "add-config")] } none := by
    decide
  refine ⟨h, ?_⟩
  intro a ha
  rw [h] at ha
  simp at ha

/-- C3 as amended: in non-usage mode the add-config handler, given fewer than three arguments,
prints its usage and returns a nil error; given three or more arguments that the flag parser
accepts and that leave `-f` empty, it returns `ErrMissingInputFile`; and whenever the arguments
supply no non-empty `-f` value, no record is inserted, however the call ends. -/
theorem addConfig_missing_input_file (env : Env) (args : List Bytes) (a : State) :
    (args.length < 3 →
      addConfig env false args a =
        Outcome.ret (Usage { a with inputFile := [], configName := [], programName := [] }
          addCmd) none) ∧
    (∀ f, 3 ≤ args.length → addCmd.Parse args = Parsed.ok f → f.value (goStr "f") = [] →
      addConfig env false args a =
        Outcome.ret { a with inputFile := [], configName := f.value (goStr "n"),
                             programName := f.value (goStr "p") }
          (some ErrMissingInputFile)) ∧
    ((args.length < 3 ∨ ∀ f, addCmd.Parse args = Parsed.ok f → f.value (goStr "f") = []) →
      (addConfig env false args a).state.db = a.db) := by
  refine ⟨?_, ?_, ?_⟩
  · intro h
    simp [addConfig, h]
  · intro f h3 hp hf
    have h3' : ¬ args.length < 3 := by omega
    simp [addConfig, h3', hp, hf]
  · intro h
    by_cases h3 : args.length < 3
    · simp [addConfig, h3, Outcome.state, Usage]
    · have hf := h.resolve_left h3
      simp only [addConfig, Bool.false_eq_true, if_false, h3]
      cases hp : addCmd.Parse args with
      | osExit f code stderr => simp [Outcome.state]
      | ok f => simp [hf f hp, Outcome.state]

theorem addConfig_missing_input_file_witness :
    addConfig sampleEnv false [goStr "-n", goStr "cfg1", goStr "-p", goStr "app1"] freshState =
      Outcome.ret { freshState with configName := goStr "cfg1", programName := goStr "app1" }
        (some ErrMissingInputFile) :=
  (addConfig_missing_input_file sampleEnv [goStr "-n", goStr "cfg1", goStr "-p", goStr "app1"]
    freshState).2.1 ⟨goStr "add-config", [(goStr "f", []), (goStr "n", goStr "cfg1"),
      (goStr "p", goStr "app1")], []⟩ (by decide) (by decide) (by decide)

/-- C5 as stated fails: for the stored content `hello`, `get-config -n cfg1` without `-d` writes
the six bytes `hello\n` to standard output, not the five bytes `hello`. -/
theorem getConfig_prints_trailing_newline :
    getConfigCmd sampleEnv false [goStr "-n", goStr "cfg1"] storedState =
      Outcome.ret { storedState with configName := goStr "cfg1", stdout := goStr "hello\n" }
        none ∧
    decodeConfigFileContent (goStr "aGVsbG8=") = (goStr "hello", none) ∧
    (getConfigCmd sampleEnv false [goStr "-n", goStr "cfg1"] storedState).state.stdout ≠
      goStr "hello" := by
  refine ⟨by decide, by decide, by decide⟩

/-- C5 as amended: when the flag parser accepts the arguments with a non-empty `-n` and no
`-d`, and the store returns for that name a record whose content decodes to `b`, the get-config
handler returns a nil error and appends to standard output exactly the bytes `b` followed by
one newline byte. -/
theorem getConfig_prints_content_newline (env : Env) (args : List Bytes) (a : State)
    (f : FlagSet) (row : ConfigDefault) (b : Bytes)
    (hparse : getCmd.Parse args = Parsed.ok f) (hname : f.value (goStr "n") ≠ [])
    (hdir : f.value (goStr "d") = [])
    (hrow : GetConfigDefaultByName a.db (f.value (goStr "n")) = Except.ok row)
    (hdec : decodeConfigFileContent row.Content = (b, none)) :
    getConfigCmd env false args a =
      Outcome.ret { a with configName := f.value (goStr "n"), outDir := [],
                           stdout := a.stdout ++ b ++ [10] } none := by
  simp [getConfigCmd, hparse, hname, hdir, hrow, hdec, Println]

theorem getConfig_prints_content_newline_witness :
    getConfigCmd sampleEnv false [goStr "-n", goStr "cfg1"] storedState =
      Outcome.ret { storedState with configName := goStr "cfg1", outDir := [],
                                     stdout := storedState.stdout ++ goStr "hello" ++ [10] }
        none :=
  getConfig_prints_content_newline sampleEnv [goStr "-n", goStr "cfg1"] storedState
    ⟨goStr "get-config", [(goStr "n", goStr "cfg1"), (goStr "d", [])], []⟩
    ⟨goStr "cfg1", goStr "f.txt", goStr "app1", goStr "aGVsbG8="⟩ (goStr "hello")
    (by decide) (by decide) (by decide) rfl (by decide)

/-- The store alone: after the insert of a record named `n` into a store holding none of that
name, the lookup by `n` returns that record, and its content decodes to `b`. -/
theorem store_insert_then_get (db : List ConfigDefault) (n p f b : Bytes) (hb : IsBytes b)
    (hfresh : ∀ r ∈ db, r.Name ≠ n) :
    (InsertConfigDefaults db
        { Name := n, Program := p, FileName := f, Content := EncodeToString b }).2 = none ∧
    ∃ row, GetConfigDefaultByName
        (InsertConfigDefaults db
          { Name := n, Program := p, FileName := f, Content := EncodeToString b }).1 n =
          Except.ok row ∧
      row.FileName = f ∧ decodeConfigFileContent row.Content = (b, none) := by
  refine ⟨rfl, ⟨n, f, p, EncodeToString b⟩, ?_, rfl, ?_⟩
  · have hnone : db.find? (fun r => decide (r.Name = n)) = none := by
      rw [List.find?_eq_none]
      intro r hr
      simpa using hfresh r hr
    simp [GetConfigDefaultByName, InsertConfigDefaults, List.find?_append, hnone]
  · simp [decodeConfigFileContent, DecodeString_Encode b hb]

/-- C8: the add-config handler, given arguments that name a readable file `f` with bytes `b`,
a config name `n` and a program `p`, on a store that holds no record named `n`, inserts the
record with name `n`, program `p`, file name `f` and the encoding of `b`, and returns nil.
Retrieving by name `n` then yields that record: its file name is `f` and its content decodes to
`b`. The get-config handler invoked with `-n n` so retrieves it: without `-d` it prints `b`,
with `-d` it hands the file name `f` and the bytes `b` to `writeConfigToFile`. -/
theorem insert_then_get (env : Env) (args1 args2 : List Bytes) (a : State) (f1 f2 : FlagSet)
    (n p f path b : Bytes) (hb : IsBytes b)
    (hlen : 3 ≤ args1.length) (hparse1 : addCmd.Parse args1 = Parsed.ok f1)
    (hf : f1.value (goStr "f") = f) (hn : f1.value (goStr "n") = n)
    (hp : f1.value (goStr "p") = p) (hfne : f ≠ []) (hnne : n ≠ []) (hpne : p ≠ [])
    (habs : env.Abs f = Except.ok path) (hread : env.ReadFile path = Except.ok b)
    (hfresh : ∀ r ∈ a.db, r.Name ≠ n)
    (hparse2 : getCmd.Parse args2 = Parsed.ok f2) (hn2 : f2.value (goStr "n") = n) :
    ∃ a1, addConfig env false args1 a = Outcome.ret a1 none ∧
      a1 = { a with inputFile := f, configName := n, programName := p,
                    db := a.db ++ [{ Name := n, FileName := f, Program := p,
                                     Content := EncodeToString b }] } ∧
      (∃ row, GetConfigDefaultByName a1.db n = Except.ok row ∧ row.Name = n ∧
        row.Program = p ∧ row.FileName = f ∧
        decodeConfigFileContent row.Content = (b, none)) ∧
      (f2.value (goStr "d") = [] →
        getConfigCmd env false args2 a1 =
          Outcome.ret { a1 with configName := n, outDir := [],
                                stdout := a1.stdout ++ b ++ [10] } none) ∧
      (f2.value (goStr "d") ≠ [] →
        getConfigCmd env false args2 a1 =
          writeConfigToFile env { a1 with configName := n, outDir := f2.value (goStr "d") }
            (f2.value (goStr "d")) f b) := by
  subst hf hn hp
  have hlen' : ¬ args1.length < 3 := by omega
  have hnone : a.db.find? (fun r => decide (r.Name = f1.value (goStr "n"))) = none := by
    rw [List.find?_eq_none]
    intro r hr
    simpa using hfresh r hr
  have hdec : decodeConfigFileContent (EncodeToString b) = (b, none) := by
    simp [decodeConfigFileContent, DecodeString_Encode b hb]
  have hget : GetConfigDefaultByName
      (a.db ++ [{ Name := f1.value (goStr "n"), FileName := f1.value (goStr "f"),
                  Program := f1.value (goStr "p"), Content := EncodeToString b }])
      (f1.value (goStr "n")) =
      Except.ok { Name := f1.value (goStr "n"), FileName := f1.value (goStr "f"),
                  Program := f1.value (goStr "p"), Content := EncodeToString b } := by
    simp [GetConfigDefaultByName, List.find?_append, hnone]
  refine ⟨_, ?_, rfl, ⟨_, hget, rfl, rfl, rfl, hdec⟩, ?_, ?_⟩
  · simp [addConfig, hlen', hparse1, hfne, hpne, hnne, habs, encodeConfigFileContent, hread,
      InsertConfigDefaults]
  · intro hd
    simp [getConfigCmd, hparse2, hn2, hnne, hget, hdec, hd, Println]
  · intro hd
    simp [getConfigCmd, hparse2, hn2, hnne, hget, hdec, hd]

set_option maxRecDepth 1000000 in
theorem insert_then_get_witness :
    ∃ a1, addConfig storeEnv false
          [goStr "-f", goStr "f.txt", goStr "-n", goStr "n1", goStr "-p", goStr "p1"]
          storedState = Outcome.ret a1 none ∧
      a1 = { storedState with
              inputFile := goStr "f.txt", configName := goStr "n1", programName := goStr "p1",
              db := storedState.db ++ [{ Name := goStr "n1", FileName := goStr "f.txt",
                                         Program := goStr "p1",
                                         Content := EncodeToString (goStr "hello") }] } ∧
      (∃ row, GetConfigDefaultByName a1.db (goStr "n1") = Except.ok row ∧
        row.Name = goStr "n1" ∧ row.Program = goStr "p1" ∧ row.FileName = goStr "f.txt" ∧
        decodeConfigFileContent row.Content = (goStr "hello", none)) ∧
      (FlagSet.value ⟨goStr "get-config", [(goStr "n", goStr "n1"), (goStr "d", [])], []⟩
          (goStr "d") = [] →
        getConfigCmd storeEnv false [goStr "-n", goStr "n1"] a1 =
          Outcome.ret { a1 with configName := goStr "n1", outDir := [],
                                stdout := a1.stdout ++ goStr "hello" ++ [10] } none) ∧
      (FlagSet.value ⟨goStr "get-config", [(goStr "n", goStr "n1"), (goStr "d", [])], []⟩
          (goStr "d") ≠ [] →
        getConfigCmd storeEnv false [goStr "-n", goStr "n1"] a1 =
          writeConfigToFile storeEnv
            { a1 with configName := goStr "n1",
                      outDir := FlagSet.value
                        ⟨goStr "get-config", [(goStr "n", goStr "n1"), (goStr "d", [])], []⟩
                        (goStr "d") }
            (FlagSet.value ⟨goStr "get-config", [(goStr "n", goStr "n1"), (goStr "d", [])], []⟩
              (goStr "d")) (goStr "f.txt") (goStr "hello")) :=
  insert_then_get storeEnv
    [goStr "-f", goStr "f.txt", goStr "-n", goStr "n1", goStr "-p", goStr "p1"]
    [goStr "-n", goStr "n1"] storedState
    ⟨goStr "add-config", [(goStr "f", goStr "f.txt"), (goStr "n", goStr "n1"),
      (goStr "p", goStr "p1")], []⟩
    ⟨goStr "get-config", [(goStr "n", goStr "n1"), (goStr "d", [])], []⟩
    (goStr "n1") (goStr "p1") (goStr "f.txt") (goStr "/work/f.txt") (goStr "hello")
    (by unfold IsBytes; decide) (by decide) (by decide) (by decide) (by decide) (by decide)
    (by decide) (by decide) (by decide) rfl rfl (by decide) (by decide) (by decide)

/-- C6 as stated fails: the argument list `["-h"]` supplies no `-n`, yet the get-config handler
does not return `ErrMissingConfigName`: the flag set was made with `flag.ExitOnError`, so
`Parse` prints the usage and the process exits with status 0. -/
theorem getConfig_help_exits :
    getConfigCmd sampleEnv false [goStr "-h"] freshState =
      Outcome.osExit { freshState with stderr := [StderrEvent.usage (goStr "get-config")] } 0 ∧
    ∀ a, getConfigCmd sampleEnv false [goStr "-h"] freshState ≠
      Outcome.ret a (some ErrMissingConfigName) := by
  have h : getConfigCmd sampleEnv false [goStr "-h"] freshState =
      Outcome.osExit { freshState with stderr := [StderrEvent.usage (goStr "get-config")] } 0 := by
    decide
  refine ⟨h, ?_⟩
  intro a ha
  rw [h] at ha
  simp at ha

/-- C6 as amended: each handler reports which required argument is absent, once the flag
parser has accepted the arguments. For add-config with three or more arguments: an empty `-f`
gives `ErrMissingInputFile`; otherwise an empty `-p` gives `ErrMissingProgramName`; otherwise an
empty `-n` gives `ErrMissingConfigName`. For get-config an empty `-n` gives
`ErrMissingConfigName`. In each case only the fields bound to the flags change: nothing is
read, inserted, queried or written. The three errors are pairwise distinct. When the parser
rejects the arguments the process exits with the parser's status instead, and again nothing
is inserted, queried or written. -/
theorem missing_argument_errors (env : Env) (args : List Bytes) (a : State) (f : FlagSet) :
    (3 ≤ args.length → addCmd.Parse args = Parsed.ok f →
      (f.value (goStr "f") = [] →
        addConfig env false args a =
          Outcome.ret { a with inputFile := f.value (goStr "f"),
                               configName := f.value (goStr "n"),
                               programName := f.value (goStr "p") }
            (some ErrMissingInputFile)) ∧
      (f.value (goStr "f") ≠ [] → f.value (goStr "p") = [] →
        addConfig env false args a =
          Outcome.ret { a with inputFile := f.value (goStr "f"),
                               configName := f.value (goStr "n"),
                               programName := f.value (goStr "p") }
            (some ErrMissingProgramName)) ∧
      (f.value (goStr "f") ≠ [] → f.value (goStr "p") ≠ [] → f.value (goStr "n") = [] →
        addConfig env false args a =
          Outcome.ret { a with inputFile := f.value (goStr "f"),
                               configName := f.value (goStr "n"),
                               programName := f.value (goStr "p") }
            (some ErrMissingConfigName))) ∧
    (getCmd.Parse args = Parsed.ok f → f.value (goStr "n") = [] →
      getConfigCmd env false args a =
        Outcome.ret { a with configName := f.value (goStr "n"), outDir := f.value (goStr "d") }
          (some ErrMissingConfigName)) ∧
    (ErrMissingInputFile ≠ ErrMissingProgramName ∧ ErrMissingInputFile ≠ ErrMissingConfigName ∧
      ErrMissingProgramName ≠ ErrMissingConfigName) ∧
    (∀ (f' : FlagSet) (code : Nat) (stderr : List StderrEvent),
      (3 ≤ args.length → addCmd.Parse args = Parsed.osExit f' code stderr →
        addConfig env false args a =
          Outcome.osExit { a with inputFile := f'.value (goStr "f"),
                                  configName := f'.value (goStr "n"),
                                  programName := f'.value (goStr "p"),
                                  stderr := a.stderr ++ stderr } code) ∧
      (getCmd.Parse args = Parsed.osExit f' code stderr →
        getConfigCmd env false args a =
          Outcome.osExit { a with configName := f'.value (goStr "n"),
                                  outDir := f'.value (goStr "d"),
                                  stderr := a.stderr ++ stderr } code)) := by
  refine ⟨?_, ?_, by decide, ?_⟩
  · intro h3 hp
    have h3' : ¬ args.length < 3 := by omega
    refine ⟨?_, ?_, ?_⟩
    · intro hf
      simp [addConfig, h3', hp, hf]
    · intro hf hpn
      simp [addConfig, h3', hp, hf, hpn]
    · intro hf hpn hn
      simp [addConfig, h3', hp, hf, hpn, hn]
  · intro hp hn
    simp [getConfigCmd, hp, hn]
  · intro f' code stderr
    refine ⟨?_, ?_⟩
    · intro h3 hp
      have h3' : ¬ args.length < 3 := by omega
      simp [addConfig, h3', hp]
    · intro hp
      simp [getConfigCmd, hp]

theorem missing_argument_errors_witness :
    getConfigCmd sampleEnv false [goStr "-d", goStr "out"] storedState =
      Outcome.ret { storedState with configName := [], outDir := goStr "out" }
        (some ErrMissingConfigName) :=
  (missing_argument_errors sampleEnv [goStr "-d", goStr "out"] storedState
    ⟨goStr "get-config", [(goStr "n", []), (goStr "d", goStr "out")], []⟩).2.1
    (by decide) (by decide)

set_option maxRecDepth 1000000 in
/-- C4, the code at the failing input: `add-config -f conf/app/settings.toml -n cfg1 -p app1`
stores the whole input path as the file name, not its base name `settings.toml`, and
`get-config -n cfg1 -d out` then writes to `out/conf/app/settings.toml`, not to
`out/settings.toml`. -/
theorem addConfig_stores_input_path :
    addConfig sampleEnv false
        [goStr "-f", goStr "conf/app/settings.toml", goStr "-n", goStr "cfg1", goStr "-p",
          goStr "app1"] freshState =
      Outcome.ret
        { freshState with
          inputFile := goStr "conf/app/settings.toml"
          configName := goStr "cfg1"
          programName := goStr "app1"
          db := [{ Name := goStr "cfg1", FileName := goStr "conf/app/settings.toml",
                   Program := goStr "app1", Content := goStr "aGVsbG8=" }] } none ∧
    Base (goStr "conf/app/settings.toml") = goStr "settings.toml" ∧
    (getConfigCmd sampleEnv false [goStr "-n", goStr "cfg1", goStr "-d", goStr "out"]
        (addConfig sampleEnv false
          [goStr "-f", goStr "conf/app/settings.toml", goStr "-n", goStr "cfg1", goStr "-p",
            goStr "app1"] freshState).state).state.written =
      [(goStr "/work/out/conf/app/settings.toml", goStr "hello")] := by
  refine ⟨by decide, by decide, by decide⟩

set_option maxRecDepth 1000000 in
/-- C10, the code at the failing input: on `"CREATE TABLE t (a text);"`, whose only `;` is the
last byte, `parseSchema` panics, the slice `s[idx+2:]` starting beyond the end of `s`. -/
theorem parseSchema_panics_on_final_semicolon :
    parseSchema (goStr "CREATE TABLE t (a text);") = none ∧
    IndexByte (goStr "CREATE TABLE t (a text);") 59 = 23 ∧
    (goStr "CREATE TABLE t (a text);").length = 24 := by
  refine ⟨by decide, by decide, by decide⟩

theorem get_of_mem_keys (m : Registry) (k : Bytes) (h : k ∈ m.map (fun p => p.1)) :
    ∃ hd, m.get k = some hd ∧ (k, hd) ∈ m := by
  induction m with
  | nil => simp at h
  | cons p m ih =>
    by_cases hp : p.1 = k
    · refine ⟨p.2, ?_, ?_⟩
      · simp [Registry.get, List.find?, hp]
      · rw [← hp]; simp
    · have h' : k ∈ m.map (fun p => p.1) := by
        simp only [List.map_cons, List.mem_cons] at h
        rcases h with h | h
        · exact absurd h.symm hp
        · exact h
      obtain ⟨hd, h1, h2⟩ := ih h'
      refine ⟨hd, ?_, List.mem_cons_of_mem _ h2⟩
      simp only [Registry.get, List.find?, hp, decide_False] at h1 ⊢
      exact h1

theorem get_none_of_not_mem (m : Registry) (k : Bytes) (h : k ∉ m.map (fun p => p.1)) :
    m.get k = none := by
  simp only [Registry.get, Option.map_eq_none', List.find?_eq_none]
  intro p hp hk
  apply h
  simp only [List.mem_map]
  exact ⟨p, hp, by simpa using hk⟩

theorem filterMap_get_forall₂ (m : Registry) : ∀ (ks : List Bytes),
    (∀ k ∈ ks, k ∈ m.map (fun p => p.1)) →
    List.Forall₂ (fun k hd => m.get k = some hd) ks (ks.filterMap (fun key => m.get key))
  | [], _ => List.Forall₂.nil
  | k :: ks, h => by
    obtain ⟨hd, h1, _⟩ := get_of_mem_keys m k (h k (by simp))
    rw [List.filterMap_cons, h1]
    exact List.Forall₂.cons h1
      (filterMap_get_forall₂ m ks (fun k' hk' => h k' (List.mem_cons_of_mem _ hk')))

theorem printUsageLoop_returns (m : Registry)
    (hret : ∀ p ∈ m, ∀ s, ∃ s' e, p.2 true [] s = Outcome.ret s' e) : ∀ (ks : List Bytes),
    (∀ k ∈ ks, k ∈ m.map (fun p => p.1)) → ∀ (a : State),
    printUsageLoop (ks.filterMap (fun key => m.get key)) a =
      Outcome.ret (ks.foldl (fun s k => Println (usageEffect m k s) []) a) none
  | [], _, a => rfl
  | k :: ks, h, a => by
    obtain ⟨hd, h1, h2⟩ := get_of_mem_keys m k (h k (by simp))
    obtain ⟨s', e, h3⟩ := hret (k, hd) h2 a
    have h3' : hd true [] a = Outcome.ret s' e := h3
    have hu : usageEffect m k a = s' := by simp [usageEffect, h1, h3', Outcome.state]
    rw [List.filterMap_cons, h1]
    simp only [printUsageLoop, h3', List.foldl_cons, hu]
    exact printUsageLoop_returns m hret ks
      (fun k' hk' => h k' (List.mem_cons_of_mem _ hk')) _

theorem Init_eq (env : Env) :
    Init env = [(goStr "list", listConfigCmd env), (goStr "get-config", getConfigCmd env),
      (goStr "add-config", addConfig env)] := rfl

theorem sortedKeys_Init (env : Env) :
    sortedKeys (Init env) = [goStr "add-config", goStr "get-config", goStr "list"] := by
  rw [Init_eq]; rfl

theorem sortedMap_Init (env : Env) :
    sortedMap (Init env) = [addConfig env, getConfigCmd env, listConfigCmd env] := by
  unfold sortedMap
  rw [sortedKeys_Init, Init_eq]
  rfl

theorem Init_usage_returns (env : Env) :
    ∀ p ∈ Init env, ∀ s, ∃ s' e, p.2 true [] s = Outcome.ret s' e := by
  intro p hp s
  rw [Init_eq] at hp
  simp only [List.mem_cons, List.mem_singleton, List.not_mem_nil, or_false] at hp
  rcases hp with rfl | rfl | rfl
  · exact ⟨_, _, by simp [listConfigCmd]; exact ⟨rfl, rfl⟩⟩
  · exact ⟨_, _, by simp [getConfigCmd]; exact ⟨rfl, rfl⟩⟩
  · exact ⟨_, _, by simp [addConfig]; exact ⟨rfl, rfl⟩⟩

theorem printUsageLoop_congr (m m' : Registry)
    (hagree : ∀ k s, (m.get k).map (fun h => h true [] s) = (m'.get k).map (fun h => h true [] s)) :
    ∀ (ks : List Bytes) (a : State),
    printUsageLoop (ks.filterMap (fun key => m.get key)) a =
      printUsageLoop (ks.filterMap (fun key => m'.get key)) a
  | [], _ => rfl
  | k :: ks, a => by
    have h := hagree k a
    rw [List.filterMap_cons, List.filterMap_cons]
    cases hm : m.get k with
    | none =>
      cases hm' : m'.get k with
      | none => exact printUsageLoop_congr m m' hagree ks a
      | some h' => rw [hm, hm'] at h; simp at h
    | some hd =>
      cases hm' : m'.get k with
      | none => rw [hm, hm'] at h; simp at h
      | some hd' =>
        rw [hm, hm'] at h
        simp only [Option.map_some', Option.some.injEq] at h
        simp only [printUsageLoop, h]
        cases hd' true [] a with
        | ret a2 err => exact printUsageLoop_congr m m' hagree ks _
        | osExit a2 code => rfl

theorem Run_congr (m m' : Registry) (osArgs : List Bytes) (a : State)
    (hkeys : m.map (fun p => p.1) = m'.map (fun p => p.1))
    (hagree : ∀ k s, (m.get k).map (fun h => h true [] s) = (m'.get k).map (fun h => h true [] s))
    (hverb : osArgs.length < 2 ∨ osArgs.getD 1 [] ∉ m.map (fun p => p.1)) :
    Run m osArgs a = Run m' osArgs a := by
  have hk : sortedKeys m = sortedKeys m' := by unfold sortedKeys; rw [hkeys]
  have hloop := printUsageLoop_congr m m' hagree (sortedKeys m')
  unfold Run printUsage sortedMap
  by_cases h2 : osArgs.length < 2
  · simp only [h2, if_true, hk, hloop]
  · have hget := get_none_of_not_mem m _ (hverb.resolve_left h2)
    have hget' := get_none_of_not_mem m' _ (hkeys ▸ hverb.resolve_left h2)
    simp only [h2, if_false, hget, hget', hk, hloop]

/-- C2: when no verb is given, or the verb is not a key of the registry, `App.Run` runs no
handler in normal mode: it calls every registered handler once in usage mode, in strictly
ascending order of the verbs, a newline after each, and returns a nil error (the handlers being
functions that return). `sortedMap` yields the handler of each key of the sorted keys, which
are the keys of the registry, each once, strictly ascending. What `Run` does then depends on
the handlers through their usage mode only. For the registry built by `Init` the order is
add-config, get-config, list. -/
theorem Run_absent_verb_prints_usage :
    (∀ (m : Registry) (osArgs : List Bytes) (a : State),
      (m.map (fun p => p.1)).Nodup →
      (∀ p ∈ m, ∀ s, ∃ s' e, p.2 true [] s = Outcome.ret s' e) →
      (osArgs.length < 2 ∨ osArgs.getD 1 [] ∉ m.map (fun p => p.1)) →
      (sortedKeys m).Perm (m.map (fun p => p.1)) ∧
      (sortedKeys m).Pairwise (fun x y => strLess x y = true) ∧
      List.Forall₂ (fun k hd => m.get k = some hd) (sortedKeys m) (sortedMap m) ∧
      Run m osArgs a =
        Outcome.ret
          (Close ((sortedKeys m).foldl (fun s k => Println (usageEffect m k s) [])
            (if osArgs.length < 2 then
              Println (Println a (goStr "incorrect number of flags")) []
            else a))) none) ∧
    (∀ (m m' : Registry) (osArgs : List Bytes) (a : State),
      m.map (fun p => p.1) = m'.map (fun p => p.1) →
      (∀ k s, (m.get k).map (fun h => h true [] s) = (m'.get k).map (fun h => h true [] s)) →
      (osArgs.length < 2 ∨ osArgs.getD 1 [] ∉ m.map (fun p => p.1)) →
      Run m osArgs a = Run m' osArgs a) ∧
    (∀ (env : Env),
      sortedKeys (Init env) = [goStr "add-config", goStr "get-config", goStr "list"] ∧
      sortedMap (Init env) = [addConfig env, getConfigCmd env, listConfigCmd env]) ∧
    (∀ (env : Env) (prog verb : Bytes) (rest : List Bytes) (a : State),
      verb ≠ goStr "add-config" → verb ≠ goStr "get-config" → verb ≠ goStr "list" →
      Run (Init env) (prog :: verb :: rest) a =
        Outcome.ret
          { inputFile := [], programName := [], configName := [], outDir := [], db := a.db,
            dbClosed := true, stdout := a.stdout ++ [10, 10, 10],
            stderr := a.stderr ++ [StderrEvent.usage (goStr "add-config"),
              StderrEvent.usage (goStr "get-config"), StderrEvent.usage (goStr "list")],
            written := a.written } none) ∧
    (∀ (env : Env) (osArgs : List Bytes) (a : State), osArgs.length < 2 →
      Run (Init env) osArgs a =
        Outcome.ret
          { inputFile := [], programName := [], configName := [], outDir := [], db := a.db,
            dbClosed := true,
            stdout := a.stdout ++ goStr "incorrect number of flags\n\n" ++ [10, 10, 10],
            stderr := a.stderr ++ [StderrEvent.usage (goStr "add-config"),
              StderrEvent.usage (goStr "get-config"), StderrEvent.usage (goStr "list")],
            written := a.written } none) := by
  refine ⟨?_, fun m m' osArgs a hk ha hv => Run_congr m m' osArgs a hk ha hv,
    fun env => ⟨sortedKeys_Init env, sortedMap_Init env⟩, ?_, ?_⟩
  · intro m osArgs a hnd hret hverb
    have hperm : (sortedKeys m).Perm (m.map (fun p => p.1)) := slicesSort_perm _
    have hmem : ∀ k ∈ sortedKeys m, k ∈ m.map (fun p => p.1) := fun k hk => hperm.subset hk
    have hloop := printUsageLoop_returns m hret (sortedKeys m) hmem
    refine ⟨hperm, slicesSort_strict _ hnd, filterMap_get_forall₂ m _ hmem, ?_⟩
    unfold Run printUsage sortedMap
    by_cases h2 : osArgs.length < 2
    · simp only [h2, if_true, hloop, deferClose]
    · have hget := get_none_of_not_mem m _ (hverb.resolve_left h2)
      simp only [h2, if_false, hget, hloop, deferClose]
  · intro env prog verb rest a h1 h2 h3
    have hget : (Init env).get verb = none := by
      apply get_none_of_not_mem
      rw [Init_eq]
      simp [h1, h2, h3]
    have hlen : ¬ (rest.length + 1 + 1 < 2) := by omega
    unfold Run printUsage
    rw [sortedMap_Init]
    simp [hget, hlen, printUsageLoop, addConfig, getConfigCmd, listConfigCmd, Usage, Println,
      deferClose, Close, addCmd, getCmd, listCmd, NewFlagSet, FlagSet.StringVar]
  · intro env osArgs a hlen
    have hs : goStr "incorrect number of flags\n\n" =
        goStr "incorrect number of flags" ++ [10, 10] := by decide
    unfold Run printUsage
    rw [sortedMap_Init, hs]
    simp [hlen, printUsageLoop, addConfig, getConfigCmd, listConfigCmd, Usage, Println,
      deferClose, Close, addCmd, getCmd, listCmd, NewFlagSet, FlagSet.StringVar]

theorem Run_absent_verb_prints_usage_witness :
    Run (Init sampleEnv) [goStr "dg", goStr "remove"] freshState =
      Outcome.ret
        (Close ((sortedKeys (Init sampleEnv)).foldl
          (fun s k => Println (usageEffect (Init sampleEnv) k s) [])
          (if [goStr "dg", goStr "remove"].length < 2 then
            Println (Println freshState (goStr "incorrect number of flags")) []
          else freshState))) none :=
  (Run_absent_verb_prints_usage.1 (Init sampleEnv) [goStr "dg", goStr "remove"] freshState
    (by rw [Init_eq]; decide) (Init_usage_returns sampleEnv)
    (Or.inr (by rw [Init_eq]; decide))).2.2.2

theorem decode_encode_roundtrip_witness :
    encodeConfigFileContent sampleEnv (goStr "/work/conf/app/settings.toml") =
        (EncodeToString (goStr "hello"), none) ∧
      decodeConfigFileContent
        (encodeConfigFileContent sampleEnv (goStr "/work/conf/app/settings.toml")).1 =
        (goStr "hello", none) :=
  decode_encode_roundtrip sampleEnv (goStr "/work/conf/app/settings.toml") (goStr "hello")
    (by unfold IsBytes; decide) rfl

theorem encode_total_storage_safe_witness :
    encodeConfigFileContent sampleEnv (goStr "/work/conf/app/settings.toml") =
        (EncodeToString (goStr "hello"), none) ∧
      (EncodeToString (goStr "hello")).length = 4 * (((goStr "hello").length + 2) / 3) ∧
      ∃ (body : Bytes) (k : Nat), EncodeToString (goStr "hello") = body ++ List.replicate k 61 ∧
        k ≤ 2 ∧ ∀ c ∈ body, inAlphabet c = true :=
  encode_total_storage_safe sampleEnv (goStr "/work/conf/app/settings.toml") (goStr "hello") rfl

theorem IndexByte_range (c : Nat) : ∀ (s : Bytes),
    IndexByte s c = -1 ∨ (0 ≤ IndexByte s c ∧ IndexByte s c < s.length)
  | [] => Or.inl rfl
  | x :: rest => by
    simp only [IndexByte]
    by_cases h : x = c
    · rw [if_pos h]
      right
      simp only [List.length_cons, Nat.cast_add, Nat.cast_one]
      omega
    · rw [if_neg h]
      rcases IndexByte_range c rest with h1 | h1
      · left
        rw [h1]; rfl
      · right
        have h2 : ¬ IndexByte rest c < 0 := by omega
        simp only [h2, if_false, List.length_cons, Nat.cast_add, Nat.cast_one]
        omega

/-- The function `parseSchema` panics exactly when the first `;` of `s` is its last byte. -/
theorem parseSchema_none_iff (s : Bytes) :
    parseSchema s = none ↔ (0 ≤ IndexByte s 59 ∧ IndexByte s 59 = (s.length : Int) - 1) := by
  unfold parseSchema
  rcases IndexByte_range 59 s with h | ⟨h0, h1⟩
  · simp [h]
  · have hneg : ¬ IndexByte s 59 < 0 := by omega
    simp only [hneg, if_false]
    have ht : ((IndexByte s 59).toNat : Int) = IndexByte s 59 := Int.toNat_of_nonneg h0
    by_cases hl : s.length < (IndexByte s 59).toNat + 2
    · rw [if_pos hl]
      simp only [true_iff]
      exact ⟨h0, by omega⟩
    · rw [if_neg hl]
      simp only [List.singleton_append, reduceCtorEq, false_iff, not_and]
      intro _
      omega

end DefaultGen
